import Mathlib

/-!
# devops-validator: the configuration validation engine

A shallow embedding of `src/src/config_validator.cpp` and the parts of
`src/src/utils.cpp` it calls, followed by theorems about the embedding.

Modelling conventions.

* `std::string` is a Lean `String`; scanning code works on its character list.
  The line patterns only distinguish ASCII characters, so a character-level
  reading agrees with the byte-level one of the source.
* The filesystem, the directory iterator and the two parsing libraries
  (nlohmann::json, yaml-cpp) are collaborators outside the repository. They are
  gathered in a `World` record that every operation receives explicitly.
* The `int` counters of the source are natural numbers: overflowing them needs
  more than two thousand million lines or files.
* Terminal output is not part of any returned value. Where a check only prints
  an informational line, the line is collected in a separate list so that the
  check itself stays visible in the embedding.
-/

namespace Devops

/-! ## Data model -/

/-- Mirror of `struct ValidationResult` in `config_validator.h`. -/
structure ValidationResult where
  valid : Bool
  errors : List String
  warnings : List String
  fileType : String
  deriving DecidableEq, Repr

/-- Value tree produced by `json::parse`. -/
inductive Json where
  | null : Json
  | boolean (b : Bool) : Json
  | number (text : String) : Json
  | string (s : String) : Json
  | array (items : List Json) : Json
  | object (members : List (String × Json)) : Json

/-- Node tree produced by `YAML::Load`. -/
inductive YamlNode where
  | null : YamlNode
  | scalar (text : String) : YamlNode
  | sequence (items : List YamlNode) : YamlNode
  | mapping (pairs : List (YamlNode × YamlNode)) : YamlNode

/-- What `stat` and `std::ifstream` report for a path. -/
inductive FileState where
  | missing : FileState
  | unreadable : FileState
  | readable (content : String) : FileState
  deriving DecidableEq, Repr

/-- One step of `fs::recursive_directory_iterator`: either the next directory
entry (with the answer of `is_regular_file()`), or an exception thrown while
advancing, carrying its `what()` text. -/
inductive WalkEvent where
  | entry (path : String) (isRegularFile : Bool) : WalkEvent
  | failure (what : String) : WalkEvent
  deriving DecidableEq, Repr

/-- The collaborators of the validation engine.

* `file` : the state of each path on disk;
* `walk` : what the recursive directory iterator yields for a directory;
* `jsonParse` : `json::parse`, failing with `(e.byte, e.what())`;
* `yamlLoad` : `YAML::Load`, failing with `e.what()`;
* `badSubscript` : the `what()` text of the `YAML::BadSubscript` exception that
  yaml-cpp raises when `operator[]` is applied to a scalar node, for that node
  and the key asked for. -/
structure World where
  file : String → FileState
  walk : String → List WalkEvent
  jsonParse : String → Except (Nat × String) Json
  yamlLoad : String → Except String YamlNode
  badSubscript : YamlNode → String → String

/-! ## Utils -/

/-- `Utils::fileExists`: whether `stat` succeeds. -/
def fileExists (w : World) (path : String) : Bool :=
  match w.file path with
  | .missing => false
  | _ => true

/-- `Utils::readFile`: the whole content, or the `std::runtime_error` text. -/
def readFile (w : World) (path : String) : Except String String :=
  match w.file path with
  | .readable content => .ok content
  | _ => .error ("Failed to open file: " ++ path)

/-- The suffix of a character list that starts at its last `'.'`
(`find_last_of('.')` followed by `substr`), `none` when there is no dot. -/
def lastDotSuffix : List Char → Option (List Char)
  | [] => none
  | c :: cs =>
    match lastDotSuffix cs with
    | some e => some e
    | none => if c = '.' then some (c :: cs) else none

/-- `Utils::getFileExtension`. -/
def getFileExtension (path : String) : String :=
  match lastDotSuffix path.data with
  | some e => String.mk e
  | none => ""

/-- `s.find(pat) != std::string::npos` on character lists. -/
def containsSubstr (pat : List Char) : List Char → Bool
  | [] => pat.isEmpty
  | c :: cs => pat.isPrefixOf (c :: cs) || containsSubstr pat cs

/-- `path.find(".env") != std::string::npos`. -/
def containsDotEnv (path : String) : Bool :=
  containsSubstr ".env".data path.data

/-! ## Regular expressions

The four `std::regex` patterns of the source use only character classes,
concatenation and repetition, so `std::regex_search` on them is decided by
language membership. `Rx` is the pattern syntax and `Rx.accepts` a derivative
matcher for it. -/

/-- Regular expressions over characters, with predicates as character classes. -/
inductive Rx where
  | nothing : Rx
  | eps : Rx
  | cls (p : Char → Bool) : Rx
  | cat (a b : Rx) : Rx
  | alt (a b : Rx) : Rx
  | star (a : Rx) : Rx

namespace Rx

/-- Whether the empty word is matched. -/
def nullable : Rx → Bool
  | nothing => false
  | eps => true
  | cls _ => false
  | cat a b => a.nullable && b.nullable
  | alt a b => a.nullable || b.nullable
  | star _ => true

/-- Brzozowski derivative by one character. -/
def deriv (c : Char) : Rx → Rx
  | nothing => nothing
  | eps => nothing
  | cls p => if p c then eps else nothing
  | cat a b => if a.nullable then alt (cat (a.deriv c) b) (b.deriv c) else cat (a.deriv c) b
  | alt a b => alt (a.deriv c) (b.deriv c)
  | star a => cat (a.deriv c) (star a)

/-- Whether the whole word is matched. -/
def accepts (r : Rx) : List Char → Bool
  | [] => r.nullable
  | c :: cs => (r.deriv c).accepts cs

/-- The pattern `a+`. -/
def plus (a : Rx) : Rx := cat a (star a)

/-- A literal character. -/
def lit (c : Char) : Rx := cls (fun x => x == c)

/-- Any character at all (used for the unmatched text around a search hit). -/
def anything : Rx := star (cls (fun _ => true))

end Rx

/-- `std::regex_search(s, r)` for a pattern without anchors: some substring of
`s` is matched by `r`. -/
def regexSearch (r : Rx) (s : List Char) : Bool :=
  (Rx.cat Rx.anything (Rx.cat r Rx.anything)).accepts s

/-- `std::regex_search(s, r)` for a pattern that begins with `^`: some prefix
of `s` is matched by the rest of the pattern `r`. -/
def regexSearchAtStart (r : Rx) (s : List Char) : Bool :=
  (Rx.cat r Rx.anything).accepts s

/-- ECMAScript `\w`. -/
def isWordChar (c : Char) : Bool := c.isAlphanum || c == '_'

/-- ECMAScript `\s` in the C locale: space, tab, line feed, vertical tab, form
feed, carriage return. -/
def isSpaceChar (c : Char) : Bool :=
  c == ' ' || c == '\t' || c == '\n' || c == Char.ofNat 11 || c == Char.ofNat 12 || c == '\r'

/-- ECMAScript `.`: anything except a line terminator. -/
def isDotChar (c : Char) : Bool := !(c == '\n' || c == '\r')

/-- The pattern `\[[\w\.\-]+\]` of `validateTOML`. -/
def sectionRegex : Rx :=
  Rx.cat (Rx.lit '[')
    (Rx.cat (Rx.plus (Rx.cls fun c => isWordChar c || c == '.' || c == '-')) (Rx.lit ']'))

/-- The pattern `[\w\-]+\s*=\s*.+` of `validateTOML`. -/
def keyValueRegex : Rx :=
  Rx.cat (Rx.plus (Rx.cls fun c => isWordChar c || c == '-'))
    (Rx.cat (Rx.star (Rx.cls isSpaceChar))
      (Rx.cat (Rx.lit '=')
        (Rx.cat (Rx.star (Rx.cls isSpaceChar)) (Rx.plus (Rx.cls isDotChar)))))

/-- The pattern `^[\w]+=[^\s]*` of `validateEnv`, without its leading `^`. -/
def envRegex : Rx :=
  Rx.cat (Rx.plus (Rx.cls isWordChar))
    (Rx.cat (Rx.lit '=') (Rx.star (Rx.cls fun c => !isSpaceChar c)))

/-- The pattern `^\s*#` of `validateEnv`, without its leading `^`. -/
def commentRegex : Rx :=
  Rx.cat (Rx.star (Rx.cls isSpaceChar)) (Rx.lit '#')

/-! ## Line splitting -/

/-- The lines that repeated `std::getline(stream, line)` calls deliver: the
text is cut at every line feed, and a final piece is delivered only when it is
not empty. `cur` is the line being read, in reverse. -/
def getlinesAux : List Char → List Char → List (List Char)
  | [], cur => if cur.isEmpty then [] else [cur.reverse]
  | c :: cs, cur =>
    if c = '\n' then cur.reverse :: getlinesAux cs [] else getlinesAux cs (c :: cur)

/-- All lines of a text, in order. -/
def getlines (content : String) : List (List Char) :=
  getlinesAux content.data []

/-! ## JSON validator -/

namespace Json

/-- `json::is_object`. -/
def isObject : Json → Bool
  | object _ => true
  | _ => false

/-- `json::is_string`. -/
def isString : Json → Bool
  | string _ => true
  | _ => false

/-- `json::empty`: null is empty, containers are empty when they hold nothing,
every other value is not. -/
def isEmpty : Json → Bool
  | null => true
  | array items => items.isEmpty
  | object members => members.isEmpty
  | _ => false

/-- `json::contains(key)`: false on anything that is not an object. -/
def contains (j : Json) (key : String) : Bool :=
  match j with
  | object members => members.any fun m => m.1 == key
  | _ => false

/-- The member stored under `key` in an object, as `j[key]` reads it once
`contains` has answered true. -/
def member (j : Json) (key : String) : Option Json :=
  match j with
  | object members => (members.find? fun m => m.1 == key).map Prod.snd
  | _ => none

end Json

/-- The informational line of `validateJSON`: printed when the document has a
string member `version`. The guard `contains` is evaluated first, so the
indexing is only reached on an object that holds the key. -/
def jsonVersionInfo (j : Json) : List String :=
  if j.contains "version" then
    match j.member "version" with
    | some (Json.string v) => ["Version: " ++ v]
    | _ => []
  else []

/-- `ConfigValidator::validateJSON` together with the informational lines it
prints. The `filePath` argument of the source is unused and left out. -/
def validateJSONRun (w : World) (content : String) : ValidationResult × List String :=
  match w.jsonParse content with
  | .ok j =>
    let warnings := if j.isObject && j.isEmpty then ["JSON object is empty"] else []
    ({ valid := true, errors := [], warnings := warnings, fileType := "JSON" },
      jsonVersionInfo j)
  | .error (byte, what) =>
    ({ valid := false,
       errors := ["JSON parse error at byte " ++ toString byte ++ ": " ++ what],
       warnings := [], fileType := "JSON" }, [])

/-- `ConfigValidator::validateJSON`. -/
def validateJSON (w : World) (content : String) : ValidationResult :=
  (validateJSONRun w content).1

/-! ## YAML validator -/

namespace YamlNode

/-- `Node::IsNull`. -/
def isNull : YamlNode → Bool
  | null => true
  | _ => false

/-- Whether a key node of a mapping equals a string key: yaml-cpp converts the
key node to `std::string`, which succeeds for scalars only. -/
def keyEquals (k : YamlNode) (key : String) : Bool :=
  match k with
  | scalar t => t == key
  | _ => false

/-- The truth value of `node[key]` for a string key, as the source tests it
(`operator[]` followed by `operator bool`).

* On a scalar, `operator[]` throws `YAML::BadSubscript`.
* On a mapping the entry is looked up by key.
* On a null node or a sequence yaml-cpp turns the node into a mapping and
  returns a fresh undefined entry, which tests false. The keys it leaves behind
  are decimal indices and the key just asked for; the source never asks for the
  same key twice, so later lookups are unaffected. -/
def hasKey (w : World) (n : YamlNode) (key : String) : Except String Bool :=
  match n with
  | scalar text => .error (w.badSubscript (scalar text) key)
  | mapping pairs => .ok (pairs.any fun kv => keyEquals kv.1 key)
  | null => .ok false
  | sequence _ => .ok false

end YamlNode

/-- The part of the result that `validateYAML` has built up while it inspects
the parsed document: warnings pushed so far and lines printed so far. -/
structure YamlTrace where
  warnings : List String
  info : List String
  deriving DecidableEq, Repr

/-- Lines 147 to 149: the empty-document warning. -/
def yamlCheckNull (config : YamlNode) (t : YamlTrace) : YamlTrace :=
  if config.isNull then { t with warnings := t.warnings ++ ["YAML file is empty"] } else t

/-- Lines 152 to 154: the playbook check
`config.IsSequence() && config.size() > 0 && config[0]["hosts"]`.
An exception leaves with the trace built so far. -/
def yamlCheckPlaybook (w : World) (config : YamlNode) (t : YamlTrace) :
    Except (YamlTrace × String) YamlTrace :=
  match config with
  | .sequence (first :: _) =>
    match first.hasKey w "hosts" with
    | .ok true => .ok { t with info := t.info ++ ["Detected Ansible playbook"] }
    | .ok false => .ok t
    | .error e => .error (t, e)
  | _ => .ok t

/-- Lines 157 to 162: the compose-file check. -/
def yamlCheckCompose (w : World) (config : YamlNode) (t : YamlTrace) :
    Except (YamlTrace × String) YamlTrace :=
  match config.hasKey w "services" with
  | .error e => .error (t, e)
  | .ok false => .ok t
  | .ok true =>
    let t1 := { t with info := t.info ++ ["Detected Docker Compose file"] }
    match config.hasKey w "version" with
    | .error e => .error (t1, e)
    | .ok true => .ok t1
    | .ok false =>
      .ok { t1 with warnings := t1.warnings ++ ["Docker Compose 'version' field missing"] }

/-- Lines 165 to 167: the cluster-manifest check
`config["apiVersion"] && config["kind"]`. -/
def yamlCheckKubernetes (w : World) (config : YamlNode) (t : YamlTrace) :
    Except (YamlTrace × String) YamlTrace :=
  match config.hasKey w "apiVersion" with
  | .error e => .error (t, e)
  | .ok false => .ok t
  | .ok true =>
    match config.hasKey w "kind" with
    | .error e => .error (t, e)
    | .ok true => .ok { t with info := t.info ++ ["Detected Kubernetes manifest"] }
    | .ok false => .ok t

/-- The body of the `try` block of `validateYAML` after `YAML::Load`. -/
def yamlChecks (w : World) (config : YamlNode) : Except (YamlTrace × String) YamlTrace :=
  match yamlCheckPlaybook w config (yamlCheckNull config ⟨[], []⟩) with
  | .error e => .error e
  | .ok t1 =>
    match yamlCheckCompose w config t1 with
    | .error e => .error e
    | .ok t2 => yamlCheckKubernetes w config t2

/-- `ConfigValidator::validateYAML` together with the informational lines it
prints. `result.valid = true` is assigned right after the load; the handler of
`YAML::Exception` resets it, whichever statement of the block threw. -/
def validateYAMLRun (w : World) (content : String) : ValidationResult × List String :=
  match w.yamlLoad content with
  | .error what =>
    ({ valid := false, errors := ["YAML parse error: " ++ what],
       warnings := [], fileType := "YAML" }, [])
  | .ok config =>
    match yamlChecks w config with
    | .ok t =>
      ({ valid := true, errors := [], warnings := t.warnings, fileType := "YAML" }, t.info)
    | .error (t, what) =>
      ({ valid := false, errors := ["YAML parse error: " ++ what],
         warnings := t.warnings, fileType := "YAML" }, t.info)

/-- `ConfigValidator::validateYAML`. -/
def validateYAML (w : World) (content : String) : ValidationResult :=
  (validateYAMLRun w content).1

/-! ## TOML validator -/

/-- `trimmed.erase(0, trimmed.find_first_not_of(" \t"))`. -/
def trimLeft (line : List Char) : List Char :=
  line.dropWhile fun c => c == ' ' || c == '\t'

/-- Loop state of `validateTOML`. -/
structure TomlState where
  warnings : List String
  hasContent : Bool
  deriving DecidableEq, Repr

/-- One iteration of the `while` loop of `validateTOML`, `lineNum` already
incremented. -/
def tomlLine (lineNum : Nat) (line : List Char) (st : TomlState) : TomlState :=
  let trimmed := trimLeft line
  if trimmed.isEmpty || trimmed.head? == some '#' then st
  else if !regexSearch sectionRegex trimmed && !regexSearch keyValueRegex trimmed then
    { warnings := st.warnings ++
        ["Line " ++ toString lineNum ++ " doesn't match TOML syntax: " ++ String.mk trimmed],
      hasContent := true }
  else { st with hasContent := true }

/-- The `while` loop of `validateTOML`; `lineNum` is the number of lines read
before. -/
def tomlLoop : List (List Char) → Nat → TomlState → TomlState
  | [], _, st => st
  | line :: rest, lineNum, st => tomlLoop rest (lineNum + 1) (tomlLine (lineNum + 1) line st)

/-- `ConfigValidator::validateTOML`. The `filePath` argument is unused. -/
def validateTOML (content : String) : ValidationResult :=
  let st := tomlLoop (getlines content) 0 ⟨[], false⟩
  let warnings :=
    if !st.hasContent then st.warnings ++ ["TOML file appears to be empty"] else st.warnings
  { valid := true, errors := [], warnings := warnings, fileType := "TOML" }

/-! ## ENV validator -/

/-- `line.substr(line.find('=') + 1)` when the line holds an `'='`. -/
def afterFirstEq : List Char → Option (List Char)
  | [] => none
  | c :: cs => if c = '=' then some cs else afterFirstEq cs

/-- Loop state of `validateEnv`. -/
structure EnvState where
  warnings : List String
  validVars : Nat
  deriving DecidableEq, Repr

/-- The quote check of lines 244 to 251 on a recognised line. -/
def envQuoteCheck (lineNum : Nat) (line : List Char) (st : EnvState) : EnvState :=
  match afterFirstEq line with
  | none => st
  | some value =>
    if value.contains ' ' && value.head? != some '"' && value.head? != some (Char.ofNat 39) then
      { st with warnings := st.warnings ++
          ["Line " ++ toString lineNum ++ ": unquoted value with spaces"] }
    else st

/-- One iteration of the `while` loop of `validateEnv`, `lineNum` already
incremented. -/
def envLine (lineNum : Nat) (line : List Char) (st : EnvState) : EnvState :=
  if line.isEmpty || regexSearchAtStart commentRegex line then st
  else if regexSearchAtStart envRegex line then
    envQuoteCheck lineNum line { st with validVars := st.validVars + 1 }
  else
    { st with warnings := st.warnings ++
        ["Line " ++ toString lineNum ++ " doesn't match ENV syntax: " ++ String.mk line] }

/-- The `while` loop of `validateEnv`. -/
def envLoop : List (List Char) → Nat → EnvState → EnvState
  | [], _, st => st
  | line :: rest, lineNum, st => envLoop rest (lineNum + 1) (envLine (lineNum + 1) line st)

/-- `ConfigValidator::validateEnv` together with the recognised-variable count
it prints. The `filePath` argument is unused. -/
def validateEnvRun (content : String) : ValidationResult × Nat :=
  let st := envLoop (getlines content) 0 ⟨[], 0⟩
  let warnings :=
    if st.validVars == 0 then st.warnings ++ ["No valid environment variables found"]
    else st.warnings
  ({ valid := true, errors := [], warnings := warnings, fileType := "ENV" }, st.validVars)

/-- `ConfigValidator::validateEnv`. -/
def validateEnv (content : String) : ValidationResult :=
  (validateEnvRun content).1

/-! ## File validation -/

/-- The branch of `validateFile` taken when the path matches none of the known
formats: the warning is pushed onto the local `result`, and the next statement
assigns the return value of `validateJSON` to that same variable. -/
def validateUnknown (w : World) (content : String) (result : ValidationResult) :
    ValidationResult :=
  let _pushed : ValidationResult :=
    { result with warnings := result.warnings ++ ["Unknown file type, attempting JSON parse"] }
  validateJSON w content

/-- The dispatch of `validateFile` (lines 32 to 45) on the extension and path
of a file that has been read. `result` is the local variable as it stands
before the dispatch. -/
def dispatchFile (w : World) (filePath content : String) (result : ValidationResult) :
    ValidationResult :=
  let ext := getFileExtension filePath
  if ext == ".json" then validateJSON w content
  else if ext == ".yaml" || ext == ".yml" then validateYAML w content
  else if ext == ".toml" then validateTOML content
  else if ext == ".env" || containsDotEnv filePath then validateEnv content
  else validateUnknown w content result

/-- `ConfigValidator::validateFile`. The local `result` starts with
`valid = false`, empty lists and an empty `fileType`. -/
def validateFile (w : World) (filePath : String) : ValidationResult :=
  let result : ValidationResult := { valid := false, errors := [], warnings := [], fileType := "" }
  if !fileExists w filePath then
    { result with errors := result.errors ++ ["File not found: " ++ filePath] }
  else
    match readFile w filePath with
    | .error what => { result with errors := result.errors ++ ["Failed to read file: " ++ what] }
    | .ok content => dispatchFile w filePath content result

/-! ## Directory validation -/

/-- The file filter of `validateDirectory` (lines 66 to 70). -/
def selectsPath (path : String) : Bool :=
  let ext := getFileExtension path
  ext == ".json" || ext == ".yaml" || ext == ".yml" || ext == ".toml" || ext == ".env" ||
    containsDotEnv path

/-- Loop state of `validateDirectory`. -/
structure DirState where
  overallResult : ValidationResult
  filesChecked : Nat
  filesValid : Nat
  deriving DecidableEq, Repr

/-- The state before the loop (lines 53 to 60). -/
def DirState.initial : DirState :=
  { overallResult := { valid := true, errors := [], warnings := [], fileType := "directory" },
    filesChecked := 0, filesValid := 0 }

/-- Lines 75 to 89: fold the result of one selected file into the state. -/
def foldFile (result : ValidationResult) (st : DirState) : DirState :=
  let st1 : DirState :=
    if result.valid then { st with filesChecked := st.filesChecked + 1,
                                   filesValid := st.filesValid + 1 }
    else { overallResult := { st.overallResult with
                              valid := false,
                              errors := st.overallResult.errors ++ result.errors },
           filesChecked := st.filesChecked + 1,
           filesValid := st.filesValid }
  { st1 with overallResult := { st1.overallResult with
                                warnings := st1.overallResult.warnings ++ result.warnings } }

/-- The body of the range-for loop for one directory entry. -/
def visitEntry (w : World) (path : String) (isRegularFile : Bool) (st : DirState) : DirState :=
  if isRegularFile && selectsPath path then foldFile (validateFile w path) st else st

/-- The range-for loop inside the `try` block: it runs until the iterator is
exhausted or throws. The second component is the `what()` text of the
exception that ended the loop, if one did. -/
def walkLoop (w : World) : List WalkEvent → DirState → DirState × Option String
  | [], st => (st, none)
  | .failure what :: _, st => (st, some what)
  | .entry path isRegularFile :: rest, st => walkLoop w rest (visitEntry w path isRegularFile st)

/-- The `try`/`catch` of `validateDirectory` on a given sequence of walk
events: the loop, then the handler (lines 93 to 97) when the loop threw. -/
def validateDirectoryOn (w : World) (walk : List WalkEvent) : DirState :=
  match walkLoop w walk DirState.initial with
  | (st, none) => st
  | (st, some what) =>
    { st with overallResult := { st.overallResult with
                                 errors := st.overallResult.errors ++
                                   ["Directory scan error: " ++ what],
                                 valid := false } }

/-- `ConfigValidator::validateDirectory` together with the two counters it
prints in the summary. -/
def validateDirectoryRun (w : World) (dirPath : String) : DirState :=
  validateDirectoryOn w (w.walk dirPath)

/-- `ConfigValidator::validateDirectory`. -/
def validateDirectory (w : World) (dirPath : String) : ValidationResult :=
  (validateDirectoryRun w dirPath).overallResult

/-! ## Vocabulary of the properties -/

/-- The entries the loop reaches: those before the first exception. -/
def reachedEntries : List WalkEvent → List (String × Bool)
  | [] => []
  | .failure _ :: _ => []
  | .entry path isRegularFile :: rest => (path, isRegularFile) :: reachedEntries rest

/-- The paths handed to `validateFile` during a walk, in visiting order. -/
def visitedFiles (walk : List WalkEvent) : List String :=
  ((reachedEntries walk).filter fun e => e.2 && selectsPath e.1).map Prod.fst

/-- The text of the first exception of a walk, if there is one. -/
def firstFailure : List WalkEvent → Option String
  | [] => none
  | .failure what :: _ => some what
  | .entry _ _ :: rest => firstFailure rest

/-- The invariant of the data model: a valid result carries no error. -/
def ValidationResult.consistent (r : ValidationResult) : Prop :=
  (r.valid = true → r.errors = []) ∧ (r.errors ≠ [] → r.valid = false)

/-- The closed set of formats that `validateFile` distinguishes. -/
inductive FormatKind where
  | json : FormatKind
  | yaml : FormatKind
  | toml : FormatKind
  | env : FormatKind
  | unknown : FormatKind
  deriving DecidableEq, Repr

/-- The branch that the `if` chain of `validateFile` (lines 34 to 45) takes for
a path. -/
def detectFormat (path : String) : FormatKind :=
  let ext := getFileExtension path
  if ext == ".json" then .json
  else if ext == ".yaml" || ext == ".yml" then .yaml
  else if ext == ".toml" then .toml
  else if ext == ".env" || containsDotEnv path then .env
  else .unknown

/-- The state after folding the results of a list of files, in order. -/
def foldFiles (w : World) (files : List String) (st : DirState) : DirState :=
  files.foldl (fun s p => foldFile (validateFile w p) s) st

/-- Whether the inspection code of `validateYAML` applies `operator[]` to a
scalar node of the document: the root itself, or the first element of a root
sequence. -/
def subscriptsScalar : YamlNode → Bool
  | .scalar _ => true
  | .sequence (.scalar _ :: _) => true
  | _ => false

/-! ## A small concrete world

Used to run the embedding on explicit inputs. The two parsers are given by
their answers on the handful of texts that occur in the files below. -/

/-- A directory `conf` with a well-formed JSON file, a malformed one, a TOML
file, an ENV file, a text file and a plain-scalar YAML file; `locked` is a
directory whose traversal fails after its first file. -/
def sampleWorld : World where
  file := fun p =>
    if p = "conf/good.json" then .readable "\x7b\"name\": \"app\"\x7d"
    else if p = "conf/bad.json" then .readable "\x7bbad json"
    else if p = "conf/app.toml" then .readable "[server]\nport = 80\n"
    else if p = "conf/.env" then .readable "FOO=bar baz\n"
    else if p = "conf/notes.txt" then .readable "\x7b\x7d"
    else if p = "conf/motd.yaml" then .readable "hello"
    else if p = "conf/list.yaml" then .readable "- a\n- b\n"
    else if p = "locked/first.toml" then .readable "oops\n"
    else if p = "locked/late.json" then .readable "\x7bbad json"
    else if p = "conf/secret.json" then .unreadable
    else .missing
  walk := fun d =>
    if d = "conf" then
      [.entry "conf/good.json" true, .entry "conf/sub" false, .entry "conf/bad.json" true,
       .entry "conf/README" true]
    else if d = "locked" then
      [.entry "locked/first.toml" true, .failure "Permission denied",
       .entry "locked/late.json" true]
    else []
  jsonParse := fun c =>
    if c = "\x7b\"name\": \"app\"\x7d" then .ok (.object [("name", .string "app")])
    else if c = "\x7b\x7d" then .ok (.object [])
    else .error (2, "syntax error while parsing object key")
  yamlLoad := fun c =>
    if c = "hello" then .ok (.scalar "hello")
    else if c = "- a\n- b\n" then .ok (.sequence [.scalar "a", .scalar "b"])
    else if c = "" then .ok .null
    else .error "bad conversion"
  badSubscript := fun _ _ => "operator[] call on a scalar"

/-! ## Vocabulary for the patterns and the line validators -/

namespace Rx

/-- The words a pattern denotes. -/
def Matches : Rx → List Char → Prop
  | nothing, _ => False
  | eps, s => s = []
  | cls p, s => ∃ c, p c = true ∧ s = [c]
  | cat a b, s => ∃ s1 s2, s = s1 ++ s2 ∧ Matches a s1 ∧ Matches b s2
  | alt a b, s => Matches a s ∨ Matches b s
  | star a, s => ∃ parts : List (List Char), s = parts.flatten ∧ ∀ p ∈ parts, Matches a p

end Rx

/-- A line that `validateTOML` neither skips nor accepts: after trimming it is
not empty, does not start with `#`, and neither pattern is found in it. -/
def tomlFlagged (line : List Char) : Bool :=
  !((trimLeft line).isEmpty || (trimLeft line).head? == some '#') &&
    (!regexSearch sectionRegex (trimLeft line) && !regexSearch keyValueRegex (trimLeft line))

/-- A line that sets `hasContent` in `validateTOML`. -/
def tomlHasContent (line : List Char) : Bool :=
  !((trimLeft line).isEmpty || (trimLeft line).head? == some '#')

/-- The warning of `validateTOML` for line number `lineNum`. -/
def tomlMessage (lineNum : Nat) (line : List Char) : String :=
  "Line " ++ toString lineNum ++ " doesn't match TOML syntax: " ++ String.mk (trimLeft line)

/-- The warnings that one line of a TOML text contributes. -/
def tomlLineWarnings (lineNum : Nat) (line : List Char) : List String :=
  if tomlFlagged line then [tomlMessage lineNum line] else []

/-- The section-header shape `\[[\w\.\-]+\]`: an opening bracket, one or more
word, dot or dash characters, a closing bracket. -/
def IsSectionHeader (s : List Char) : Prop :=
  ∃ name, s = '[' :: name ++ [']'] ∧ name ≠ [] ∧
    ∀ c ∈ name, (isWordChar c || c == '.' || c == '-') = true

/-- The key-value shape `[\w\-]+\s*=\s*.+`: one or more word or dash
characters, optional whitespace, an equals sign, optional whitespace and a
non-empty remainder without line terminators. -/
def IsKeyValue (s : List Char) : Prop :=
  ∃ key ws1 ws2 value, s = key ++ ws1 ++ '=' :: (ws2 ++ value) ∧ key ≠ [] ∧
    (∀ c ∈ key, (isWordChar c || c == '-') = true) ∧
    (∀ c ∈ ws1, isSpaceChar c = true) ∧ (∀ c ∈ ws2, isSpaceChar c = true) ∧
    value ≠ [] ∧ ∀ c ∈ value, isDotChar c = true

/-- A line that `validateEnv` skips. -/
def envSkipped (line : List Char) : Bool :=
  line.isEmpty || regexSearchAtStart commentRegex line

/-- A line that `validateEnv` recognises as a variable assignment. -/
def envRecognised (line : List Char) : Bool :=
  !envSkipped line && regexSearchAtStart envRegex line

/-- The condition of the quote check of `validateEnv`: the text after the first
`'='` holds a space and starts with neither quote character. -/
def envUnquoted (line : List Char) : Bool :=
  match afterFirstEq line with
  | none => false
  | some value =>
    value.contains ' ' && value.head? != some '"' && value.head? != some (Char.ofNat 39)

/-- The warnings that one line of an ENV text contributes. -/
def envLineWarnings (lineNum : Nat) (line : List Char) : List String :=
  if envSkipped line then []
  else if regexSearchAtStart envRegex line then
    if envUnquoted line then ["Line " ++ toString lineNum ++ ": unquoted value with spaces"]
    else []
  else ["Line " ++ toString lineNum ++ " doesn't match ENV syntax: " ++ String.mk line]

/-- The warnings built up by the inspection code of `validateYAML`, whether it completes or
throws. -/
def yamlTraceWarnings (r : Except (YamlTrace × String) YamlTrace) : List String :=
  match r with
  | .ok t => t.warnings
  | .error (t, _) => t.warnings

/-- Whether the root of a YAML document is a mapping that holds `key`. -/
def rootHasKey (config : YamlNode) (key : String) : Bool :=
  match config with
  | .mapping pairs => pairs.any fun kv => YamlNode.keyEquals kv.1 key
  | _ => false

/-- The label that `validateFile` gives to a file of each format once it has
been read: the fallback branch for unknown files runs the JSON validator. -/
def FormatKind.label : FormatKind → String
  | .json => "JSON"
  | .yaml => "YAML"
  | .toml => "TOML"
  | .env => "ENV"
  | .unknown => "JSON"

/-- The sample world with a loader that also knows a compose file without a
`version` key. -/
def composeWorld : World :=
  { sampleWorld with
    yamlLoad := fun c =>
      if c = "services:\n  web:\n    image: x" then
        .ok (.mapping [(.scalar "services",
          .mapping [(.scalar "web", .mapping [(.scalar "image", .scalar "x")])])])
      else sampleWorld.yamlLoad c }

/-! ## Runs that depend on the regular-expression engine

`validateTOML` and `validateEnv` hand every line to `std::regex_search` without
a length bound and without an exception handler (lines 205 to 206, 236 and
240). The engine of the C++ standard library does not complete every search:
on a long subject it exhausts the call stack or reports `std::regex_error`. A
search that does not complete ends the validator without a result. The
definitions below repeat the two validators with every search made through an
engine that may fail to come back. -/

/-- The regular-expression engine as far as the outcome of a run depends on
it: `completes r s` tells whether the search for pattern `r` in subject `s`
comes back. -/
structure RegexEngine where
  completes : Rx → List Char → Bool

/-- An engine that completes every search. -/
def RegexEngine.unbounded : RegexEngine :=
  { completes := fun _ _ => true }

/-- An engine that completes the searches in subjects of at most `capacity`
characters. -/
def RegexEngine.bounded (capacity : Nat) : RegexEngine :=
  { completes := fun _ s => s.length ≤ capacity }

/-- `std::regex_search(s, r)` through an engine, for a pattern without
anchors. -/
def regexSearchOn (e : RegexEngine) (r : Rx) (s : List Char) : Option Bool :=
  if e.completes r s then some (regexSearch r s) else none

/-- `std::regex_search(s, r)` through an engine, for a pattern that begins
with `^`. -/
def regexSearchAtStartOn (e : RegexEngine) (r : Rx) (s : List Char) : Option Bool :=
  if e.completes r s then some (regexSearchAtStart r s) else none

/-- One iteration of the `while` loop of `validateTOML` through an engine. The
second search is made only when the first one finds nothing (`&&` of line
205). -/
def tomlLineOn (e : RegexEngine) (lineNum : Nat) (line : List Char) (st : TomlState) :
    Option TomlState :=
  let trimmed := trimLeft line
  if trimmed.isEmpty || trimmed.head? == some '#' then some st
  else
    match regexSearchOn e sectionRegex trimmed with
    | none => none
    | some true => some { st with hasContent := true }
    | some false =>
      match regexSearchOn e keyValueRegex trimmed with
      | none => none
      | some true => some { st with hasContent := true }
      | some false =>
        some { warnings := st.warnings ++
                 ["Line " ++ toString lineNum ++ " doesn't match TOML syntax: " ++
                   String.mk trimmed],
               hasContent := true }

/-- The `while` loop of `validateTOML` through an engine. -/
def tomlLoopOn (e : RegexEngine) : List (List Char) → Nat → TomlState → Option TomlState
  | [], _, st => some st
  | line :: rest, lineNum, st =>
    match tomlLineOn e (lineNum + 1) line st with
    | none => none
    | some st1 => tomlLoopOn e rest (lineNum + 1) st1

/-- `ConfigValidator::validateTOML` through an engine: `none` when a search
did not come back, so that no result is returned. -/
def validateTOMLOn (e : RegexEngine) (content : String) : Option ValidationResult :=
  match tomlLoopOn e (getlines content) 0 ⟨[], false⟩ with
  | none => none
  | some st =>
    let warnings :=
      if !st.hasContent then st.warnings ++ ["TOML file appears to be empty"] else st.warnings
    some { valid := true, errors := [], warnings := warnings, fileType := "TOML" }

/-- One iteration of the `while` loop of `validateEnv` through an engine. The
comment search is made on every non-empty line (`||` of line 236), the
recognition search on the lines that are not skipped. -/
def envLineOn (e : RegexEngine) (lineNum : Nat) (line : List Char) (st : EnvState) :
    Option EnvState :=
  if line.isEmpty then some st
  else
    match regexSearchAtStartOn e commentRegex line with
    | none => none
    | some true => some st
    | some false =>
      match regexSearchAtStartOn e envRegex line with
      | none => none
      | some true => some (envQuoteCheck lineNum line { st with validVars := st.validVars + 1 })
      | some false =>
        some { st with warnings := st.warnings ++
                 ["Line " ++ toString lineNum ++ " doesn't match ENV syntax: " ++
                   String.mk line] }

/-- The `while` loop of `validateEnv` through an engine. -/
def envLoopOn (e : RegexEngine) : List (List Char) → Nat → EnvState → Option EnvState
  | [], _, st => some st
  | line :: rest, lineNum, st =>
    match envLineOn e (lineNum + 1) line st with
    | none => none
    | some st1 => envLoopOn e rest (lineNum + 1) st1

/-- `ConfigValidator::validateEnv` through an engine: `none` when a search did
not come back. -/
def validateEnvOn (e : RegexEngine) (content : String) : Option ValidationResult :=
  match envLoopOn e (getlines content) 0 ⟨[], 0⟩ with
  | none => none
  | some st =>
    let warnings :=
      if st.validVars == 0 then st.warnings ++ ["No valid environment variables found"]
      else st.warnings
    some { valid := true, errors := [], warnings := warnings, fileType := "ENV" }

/-- The searches that `validateTOML` makes for one line, in order. -/
def tomlSearches (line : List Char) : List (Rx × List Char) :=
  if (trimLeft line).isEmpty || (trimLeft line).head? == some '#' then []
  else
    (sectionRegex, trimLeft line) ::
      (if regexSearch sectionRegex (trimLeft line) then []
        else [(keyValueRegex, trimLeft line)])

/-- The searches that `validateEnv` makes for one line, in order. -/
def envSearches (line : List Char) : List (Rx × List Char) :=
  if line.isEmpty then []
  else
    (commentRegex, line) ::
      (if regexSearchAtStart commentRegex line then [] else [(envRegex, line)])

/-! ## Auxiliary facts -/

section Aux

theorem lastDotSuffix_suffix (l e : List Char) (h : lastDotSuffix l = some e) :
    ∃ pre, l = pre ++ e := by
  induction l with
  | nil => simp [lastDotSuffix] at h
  | cons c cs ih =>
    unfold lastDotSuffix at h
    cases hcs : lastDotSuffix cs with
    | some e1 =>
      rw [hcs] at h
      simp only [Option.some.injEq] at h
      obtain ⟨pre, hpre⟩ := ih (h ▸ hcs)
      exact ⟨c :: pre, by simp [hpre]⟩
    | none =>
      rw [hcs] at h
      by_cases hc : c = '.'
      · simp only [hc, if_true, Option.some.injEq] at h
        exact ⟨[], by simp [← h, hc]⟩
      · simp [hc] at h

theorem containsSubstr_append (pat pre : List Char) :
    containsSubstr pat (pre ++ pat) = true := by
  induction pre with
  | nil =>
    cases pat with
    | nil => rfl
    | cons c cs => simp [containsSubstr]
  | cons c cs ih => simp [containsSubstr, ih]

/-- A path whose extension is `.env` contains the text `.env`. -/
theorem containsDotEnv_of_ext (path : String) (h : getFileExtension path = ".env") :
    containsDotEnv path = true := by
  unfold getFileExtension at h
  cases hl : lastDotSuffix path.data with
  | none => rw [hl] at h; exact absurd h (by decide)
  | some e =>
    rw [hl] at h
    have he : e = ".env".data := by
      have := congrArg String.data h
      simpa using this
    obtain ⟨pre, hpre⟩ := lastDotSuffix_suffix _ _ hl
    unfold containsDotEnv
    rw [hpre, he]
    exact containsSubstr_append _ _

theorem visitedFiles_nil : visitedFiles [] = [] := rfl

theorem visitedFiles_failure (what : String) (rest : List WalkEvent) :
    visitedFiles (.failure what :: rest) = [] := rfl

theorem visitedFiles_entry (path : String) (reg : Bool) (rest : List WalkEvent) :
    visitedFiles (.entry path reg :: rest) =
      if reg && selectsPath path then path :: visitedFiles rest else visitedFiles rest := by
  unfold visitedFiles
  simp only [reachedEntries, List.filter_cons]
  split <;> simp

/-- The loop folds exactly the visited files and stops at the first failure. -/
theorem walkLoop_eq (w : World) (walk : List WalkEvent) (st : DirState) :
    walkLoop w walk st = (foldFiles w (visitedFiles walk) st, firstFailure walk) := by
  induction walk generalizing st with
  | nil => rfl
  | cons ev rest ih =>
    cases ev with
    | failure what => rfl
    | entry path reg =>
      simp only [walkLoop, ih, visitedFiles_entry, firstFailure, visitEntry]
      split <;> simp [foldFiles]

theorem foldFiles_nil (w : World) (st : DirState) : foldFiles w [] st = st := rfl

theorem foldFiles_cons (w : World) (p : String) (ps : List String) (st : DirState) :
    foldFiles w (p :: ps) st = foldFiles w ps (foldFile (validateFile w p) st) := rfl

theorem foldFiles_valid (w : World) (files : List String) (st : DirState) :
    (foldFiles w files st).overallResult.valid =
      (st.overallResult.valid && files.all fun p => (validateFile w p).valid) := by
  induction files generalizing st with
  | nil => simp [foldFiles_nil]
  | cons p ps ih =>
    rw [foldFiles_cons, ih]
    cases hv : (validateFile w p).valid <;> simp [foldFile, hv]

theorem foldFiles_errors (w : World) (files : List String) (st : DirState) :
    (foldFiles w files st).overallResult.errors =
      st.overallResult.errors ++
        (files.filter fun p => !(validateFile w p).valid).flatMap
          fun p => (validateFile w p).errors := by
  induction files generalizing st with
  | nil => simp [foldFiles_nil]
  | cons p ps ih =>
    rw [foldFiles_cons, ih]
    cases hv : (validateFile w p).valid <;> simp [foldFile, hv]

theorem foldFiles_warnings (w : World) (files : List String) (st : DirState) :
    (foldFiles w files st).overallResult.warnings =
      st.overallResult.warnings ++ files.flatMap fun p => (validateFile w p).warnings := by
  induction files generalizing st with
  | nil => simp [foldFiles_nil]
  | cons p ps ih =>
    rw [foldFiles_cons, ih]
    cases hv : (validateFile w p).valid <;> simp [foldFile, hv]

theorem foldFiles_fileType (w : World) (files : List String) (st : DirState) :
    (foldFiles w files st).overallResult.fileType = st.overallResult.fileType := by
  induction files generalizing st with
  | nil => rfl
  | cons p ps ih =>
    rw [foldFiles_cons, ih]
    cases hv : (validateFile w p).valid <;> simp [foldFile, hv]

theorem foldFiles_filesChecked (w : World) (files : List String) (st : DirState) :
    (foldFiles w files st).filesChecked = st.filesChecked + files.length := by
  induction files generalizing st with
  | nil => rfl
  | cons p ps ih =>
    rw [foldFiles_cons, ih]
    cases hv : (validateFile w p).valid <;> simp [foldFile, hv] <;> omega

theorem foldFiles_filesValid (w : World) (files : List String) (st : DirState) :
    (foldFiles w files st).filesValid =
      st.filesValid + (files.filter fun p => (validateFile w p).valid).length := by
  induction files generalizing st with
  | nil => rfl
  | cons p ps ih =>
    rw [foldFiles_cons, ih]
    cases hv : (validateFile w p).valid <;> simp [foldFile, hv]
    omega

theorem length_filter_add_length_filter_not (files : List String) (f : String → Bool) :
    (files.filter f).length + (files.filter fun p => !f p).length = files.length := by
  induction files with
  | nil => rfl
  | cons p ps ih =>
    cases hf : f p <;> simp [List.filter_cons, hf] <;> omega

theorem consistent_of_valid_imp (r : ValidationResult) (h : r.valid = true → r.errors = []) :
    r.consistent := by
  refine ⟨h, fun hne => ?_⟩
  cases hv : r.valid with
  | false => rfl
  | true => exact absurd (h hv) hne

theorem validateJSON_consistent (w : World) (content : String) :
    (validateJSON w content).consistent := by
  apply consistent_of_valid_imp
  unfold validateJSON validateJSONRun
  cases w.jsonParse content with
  | error e => simp
  | ok j => simp

theorem validateYAML_consistent (w : World) (content : String) :
    (validateYAML w content).consistent := by
  apply consistent_of_valid_imp
  unfold validateYAML validateYAMLRun
  cases w.yamlLoad content with
  | error e => simp
  | ok config =>
    dsimp only
    cases yamlChecks w config with
    | error e => simp
    | ok t => simp

theorem validateTOML_consistent (content : String) : (validateTOML content).consistent :=
  consistent_of_valid_imp _ fun _ => rfl

theorem validateEnv_consistent (content : String) : (validateEnv content).consistent :=
  consistent_of_valid_imp _ fun _ => rfl

theorem dispatchFile_consistent (w : World) (filePath content : String)
    (result : ValidationResult) : (dispatchFile w filePath content result).consistent := by
  unfold dispatchFile validateUnknown
  simp only
  split
  · exact validateJSON_consistent w content
  · split
    · exact validateYAML_consistent w content
    · split
      · exact validateTOML_consistent content
      · split
        · exact validateEnv_consistent content
        · exact validateJSON_consistent w content

theorem validateFile_consistent (w : World) (filePath : String) :
    (validateFile w filePath).consistent := by
  unfold validateFile
  simp only
  split
  · exact consistent_of_valid_imp _ (by simp)
  · split
    · exact consistent_of_valid_imp _ (by simp)
    · exact dispatchFile_consistent _ _ _ _

theorem validateDirectoryOn_consistent (w : World) (walk : List WalkEvent) :
    (validateDirectoryOn w walk).overallResult.consistent := by
  apply consistent_of_valid_imp
  unfold validateDirectoryOn
  rw [walkLoop_eq]
  cases firstFailure walk with
  | some what => simp
  | none =>
    simp only [foldFiles_valid, foldFiles_errors, DirState.initial, Bool.true_and,
      List.nil_append, List.all_eq_true]
    intro hall
    have hnil : (visitedFiles walk).filter (fun p => !(validateFile w p).valid) = [] := by
      rw [List.filter_eq_nil_iff]
      intro p hp
      simp [hall p hp]
    rw [hnil]
    rfl

/-- The inspection of a parsed YAML document completes unless it subscripts a
scalar. -/
theorem yamlChecks_ok (w : World) (config : YamlNode) (h : subscriptsScalar config = false) :
    ∃ t, yamlChecks w config = .ok t := by
  have hmap : ∀ (pairs : List (YamlNode × YamlNode)) (t : YamlTrace),
      (∃ t1, yamlCheckCompose w (.mapping pairs) t = .ok t1) ∧
        (∃ t1, yamlCheckKubernetes w (.mapping pairs) t = .ok t1) := by
    intro pairs t
    unfold yamlCheckCompose yamlCheckKubernetes
    simp only [YamlNode.hasKey]
    refine ⟨?_, ?_⟩
    · cases pairs.any fun kv => YamlNode.keyEquals kv.1 "services" <;>
        cases pairs.any fun kv => YamlNode.keyEquals kv.1 "version" <;> simp
    · cases pairs.any fun kv => YamlNode.keyEquals kv.1 "apiVersion" <;>
        cases pairs.any fun kv => YamlNode.keyEquals kv.1 "kind" <;> simp
  have hrest : ∀ (items : List YamlNode) (t : YamlTrace),
      ∃ t2, (match yamlCheckCompose w (.sequence items) t with
        | .error e => Except.error e
        | .ok t2 => yamlCheckKubernetes w (.sequence items) t2) = .ok t2 := by
    intro items t
    exact ⟨t, rfl⟩
  cases config with
  | scalar s => simp [subscriptsScalar] at h
  | null => exact ⟨_, rfl⟩
  | mapping pairs =>
    unfold yamlChecks
    simp only [yamlCheckPlaybook]
    obtain ⟨t1, h1⟩ := (hmap pairs (yamlCheckNull (.mapping pairs) ⟨[], []⟩)).1
    obtain ⟨t2, h2⟩ := (hmap pairs t1).2
    exact ⟨t2, by rw [h1]; exact h2⟩
  | sequence items =>
    cases items with
    | nil => exact ⟨_, rfl⟩
    | cons first rest =>
      unfold yamlChecks
      cases first with
      | scalar s => simp [subscriptsScalar] at h
      | null => exact hrest _ _
      | sequence inner => exact hrest _ _
      | mapping pairs =>
        simp only [yamlCheckPlaybook, YamlNode.hasKey]
        cases pairs.any fun kv => YamlNode.keyEquals kv.1 "hosts" <;> exact hrest _ _

end Aux

/-! ## File validation: unknown file types (C1) -/

/-- C1. For an existing, readable file whose format is Unknown (its extension
is none of `.json`, `.yaml`, `.yml`, `.toml` and its path does not contain
`.env`), `validateFile` returns exactly what `validateJSON` returns for the
content: the warning "Unknown file type, attempting JSON parse" that was pushed
before the call is overwritten by the assignment and is absent from the
returned warnings. -/
theorem validateFile_unknown_warning_lost (w : World) (path content : String)
    (hfile : w.file path = .readable content)
    (hjson : getFileExtension path ≠ ".json")
    (hyaml : getFileExtension path ≠ ".yaml")
    (hyml : getFileExtension path ≠ ".yml")
    (htoml : getFileExtension path ≠ ".toml")
    (henv : containsDotEnv path = false) :
    validateFile w path = validateJSON w content ∧
      "Unknown file type, attempting JSON parse" ∉ (validateFile w path).warnings := by
  have hext : getFileExtension path ≠ ".env" := by
    intro h
    rw [containsDotEnv_of_ext path h] at henv
    exact Bool.noConfusion henv
  have hrun : validateFile w path = validateJSON w content := by
    simp [validateFile, fileExists, readFile, hfile, dispatchFile, validateUnknown,
      hjson, hyaml, hyml, htoml, hext, henv]
  refine ⟨hrun, ?_⟩
  rw [hrun]
  unfold validateJSON validateJSONRun
  cases hp : w.jsonParse content with
  | error e => simp
  | ok j =>
    simp only
    split
    · intro hmem
      simp only [List.mem_singleton] at hmem
      exact absurd hmem (by decide)
    · simp

/-- C1, at a concrete input: `conf/notes.txt` holds the text of an empty JSON
object; the only warning returned is the one of the JSON validator. -/
theorem validateFile_unknown_warning_lost_witness :
    validateFile sampleWorld "conf/notes.txt" =
        { valid := true, errors := [], warnings := ["JSON object is empty"], fileType := "JSON" } ∧
      (validateFile sampleWorld "conf/notes.txt" = validateJSON sampleWorld "\x7b\x7d" ∧
        "Unknown file type, attempting JSON parse" ∉
          (validateFile sampleWorld "conf/notes.txt").warnings) :=
  ⟨by decide,
    validateFile_unknown_warning_lost sampleWorld "conf/notes.txt" "\x7b\x7d"
      (by decide) (by decide) (by decide) (by decide) (by decide) (by decide)⟩

/-! ## Directory aggregation (C2 to C5) -/

/-- C2. The aggregate of `validateDirectory` is invalid exactly when some
visited file has an invalid result of its own or the walk raised a traversal
failure. When no failure is raised the aggregate `valid` is the conjunction of
the per-file flags, and an empty walk gives `valid = true`. -/
theorem validateDirectory_valid_iff (w : World) (dirPath : String) :
    ((validateDirectory w dirPath).valid = false ↔
        (∃ p ∈ visitedFiles (w.walk dirPath), (validateFile w p).valid = false) ∨
          (firstFailure (w.walk dirPath)).isSome = true) ∧
      (firstFailure (w.walk dirPath) = none →
        (validateDirectory w dirPath).valid =
          (visitedFiles (w.walk dirPath)).all fun p => (validateFile w p).valid) ∧
      (w.walk dirPath = [] → (validateDirectory w dirPath).valid = true) := by
  have hall : ∀ files : List String,
      ((files.all fun p => (validateFile w p).valid) = false ↔
        ∃ p ∈ files, (validateFile w p).valid = false) := by
    intro files
    rw [← Bool.not_eq_true, List.all_eq_true]
    simp
  unfold validateDirectory validateDirectoryRun validateDirectoryOn
  rw [walkLoop_eq]
  refine ⟨?_, ?_, ?_⟩
  · cases hf : firstFailure (w.walk dirPath) with
    | none => simp [foldFiles_valid, DirState.initial, hall]
    | some what => simp
  · intro hf
    simp [hf, foldFiles_valid, DirState.initial]
  · intro hw
    simp [hw, visitedFiles_nil, firstFailure, foldFiles_nil, DirState.initial]

/-- C2, at a concrete input: the directory `conf` of the sample world is walked
without failure and holds one invalid file. -/
theorem validateDirectory_valid_iff_witness :
    firstFailure (sampleWorld.walk "conf") = none ∧
      (validateDirectory sampleWorld "conf").valid =
        (visitedFiles (sampleWorld.walk "conf")).all fun p => (validateFile sampleWorld p).valid :=
  ⟨by decide, (validateDirectory_valid_iff sampleWorld "conf").2.1 (by decide)⟩

/-- C3, as stated, fails: in the directory `locked` of the sample world the walk
yields one file, raises a failure and would then yield the selected regular
file `locked/late.json`, whose own validation reports an error. That file is
not visited: one file is counted and the only aggregate error is the scan
error. -/
theorem validateDirectory_failure_skips_rest :
    sampleWorld.walk "locked" =
        [.entry "locked/first.toml" true, .failure "Permission denied",
         .entry "locked/late.json" true] ∧
      selectsPath "locked/late.json" = true ∧
      (validateFile sampleWorld "locked/late.json").errors =
        ["JSON parse error at byte 2: syntax error while parsing object key"] ∧
      (validateDirectoryRun sampleWorld "locked").filesChecked = 1 ∧
      (validateDirectory sampleWorld "locked").errors =
        ["Directory scan error: Permission denied"] ∧
      ¬ (∀ e ∈ (validateFile sampleWorld "locked/late.json").errors,
          e ∈ (validateDirectory sampleWorld "locked").errors) := by
  decide

/-- C3, amended. When the walk raises a traversal failure after the events
`before`, the loop ends there: the aggregate is the fold of the files visited
in `before`, with `valid = false` and the entry "Directory scan error: ..." as
the last error, and it is the same whatever events `after` would have
followed. -/
theorem validateDirectory_failure_ends_walk (w : World) (dirPath what : String)
    (before after : List WalkEvent)
    (hwalk : w.walk dirPath = before ++ .failure what :: after)
    (hbefore : firstFailure before = none) :
    (validateDirectory w dirPath).valid = false ∧
      (validateDirectory w dirPath).errors =
        ((visitedFiles before).filter fun p => !(validateFile w p).valid).flatMap
            (fun p => (validateFile w p).errors) ++
          ["Directory scan error: " ++ what] ∧
      (validateDirectory w dirPath).warnings =
        (visitedFiles before).flatMap (fun p => (validateFile w p).warnings) ∧
      (validateDirectoryRun w dirPath).filesChecked = (visitedFiles before).length ∧
      (validateDirectoryRun w dirPath).filesValid =
        ((visitedFiles before).filter fun p => (validateFile w p).valid).length ∧
      validateDirectoryRun w dirPath = validateDirectoryOn w (before ++ [.failure what]) := by
  have hvis : ∀ tail : List WalkEvent,
      visitedFiles (before ++ .failure what :: tail) = visitedFiles before ∧
        firstFailure (before ++ .failure what :: tail) = some what := by
    intro tail
    clear hwalk
    induction before with
    | nil => exact ⟨rfl, rfl⟩
    | cons ev rest ih =>
      cases ev with
      | failure x => simp [firstFailure] at hbefore
      | entry path reg =>
        have hrest : firstFailure rest = none := by simpa [firstFailure] using hbefore
        obtain ⟨h1, h2⟩ := ih hrest
        refine ⟨?_, ?_⟩
        · simp only [List.cons_append, visitedFiles_entry, h1]
        · simpa [firstFailure] using h2
  unfold validateDirectory validateDirectoryRun validateDirectoryOn
  rw [hwalk, walkLoop_eq, walkLoop_eq, (hvis after).1, (hvis after).2, (hvis []).1, (hvis []).2]
  simp [foldFiles_errors, foldFiles_warnings, foldFiles_filesChecked, foldFiles_filesValid,
    DirState.initial]

/-- C3 amended, at a concrete input: the directory `locked`, whose first file
is folded (it is valid and carries one warning) before the failure. -/
theorem validateDirectory_failure_ends_walk_witness :
    validateDirectoryRun sampleWorld "locked" =
        { overallResult :=
            { valid := false, errors := ["Directory scan error: Permission denied"],
              warnings := ["Line 1 doesn't match TOML syntax: oops"], fileType := "directory" },
          filesChecked := 1, filesValid := 1 } ∧
      validateDirectoryRun sampleWorld "locked" =
        validateDirectoryOn sampleWorld
          ([.entry "locked/first.toml" true] ++ [.failure "Permission denied"]) :=
  ⟨by decide,
    (validateDirectory_failure_ends_walk sampleWorld "locked" "Permission denied"
      [.entry "locked/first.toml" true] [.entry "locked/late.json" true]
      (by decide) (by decide)).2.2.2.2.2⟩

/-- C4. When the walk raises no failure, the aggregate errors are the errors of
the invalid visited files, concatenated in visiting order, the aggregate
warnings are the warnings of all visited files, concatenated in visiting order,
`filesChecked` counts the visited files and `filesValid` the valid ones. In
particular, when the walk yields exactly one well-formed and one malformed JSON
file (in either order), the aggregate has `filesChecked = 2`, `filesValid = 1`,
`valid = false` and exactly the errors of the malformed file. -/
theorem validateDirectory_merges_in_order (w : World) (dirPath : String)
    (hwalk : firstFailure (w.walk dirPath) = none) :
    ((validateDirectory w dirPath).errors =
        ((visitedFiles (w.walk dirPath)).filter fun p => !(validateFile w p).valid).flatMap
          (fun p => (validateFile w p).errors) ∧
      (validateDirectory w dirPath).warnings =
        (visitedFiles (w.walk dirPath)).flatMap (fun p => (validateFile w p).warnings) ∧
      (validateDirectoryRun w dirPath).filesChecked = (visitedFiles (w.walk dirPath)).length ∧
      (validateDirectoryRun w dirPath).filesValid =
        ((visitedFiles (w.walk dirPath)).filter fun p => (validateFile w p).valid).length) ∧
    (∀ (good bad goodText badText : String) (doc : Json) (byte : Nat) (what : String),
      getFileExtension good = ".json" → getFileExtension bad = ".json" →
      w.file good = .readable goodText → w.file bad = .readable badText →
      w.jsonParse goodText = .ok doc → w.jsonParse badText = .error (byte, what) →
      (w.walk dirPath = [.entry good true, .entry bad true] ∨
        w.walk dirPath = [.entry bad true, .entry good true]) →
      (validateDirectoryRun w dirPath).filesChecked = 2 ∧
        (validateDirectoryRun w dirPath).filesValid = 1 ∧
        (validateDirectory w dirPath).valid = false ∧
        (validateDirectory w dirPath).errors = (validateFile w bad).errors ∧
        (validateFile w bad).errors =
          ["JSON parse error at byte " ++ toString byte ++ ": " ++ what]) := by
  have hrun : validateDirectoryRun w dirPath =
      foldFiles w (visitedFiles (w.walk dirPath)) DirState.initial := by
    unfold validateDirectoryRun validateDirectoryOn
    rw [walkLoop_eq, hwalk]
  refine ⟨?_, ?_⟩
  · unfold validateDirectory
    rw [hrun]
    simp [foldFiles_errors, foldFiles_warnings, foldFiles_filesChecked, foldFiles_filesValid,
      DirState.initial]
  · intro good bad goodText badText doc byte what hg hb hfg hfb hpg hpb hw
    have hgood : validateFile w good = validateJSON w goodText := by
      simp [validateFile, fileExists, readFile, hfg, dispatchFile, hg]
    have hbad : validateFile w bad = validateJSON w badText := by
      simp [validateFile, fileExists, readFile, hfb, dispatchFile, hb]
    have hgv : (validateJSON w goodText).valid = true := by
      simp [validateJSON, validateJSONRun, hpg]
    have hbr : validateJSON w badText =
        { valid := false,
          errors := ["JSON parse error at byte " ++ toString byte ++ ": " ++ what],
          warnings := [], fileType := "JSON" } := by
      simp [validateJSON, validateJSONRun, hpb]
    have hsg : selectsPath good = true := by simp [selectsPath, hg]
    have hsb : selectsPath bad = true := by simp [selectsPath, hb]
    unfold validateDirectory
    rw [hrun]
    rcases hw with hw | hw <;>
      simp [hw, visitedFiles_entry, visitedFiles_nil, hsg, hsb, foldFiles_cons, foldFiles_nil,
        foldFile, hgood, hbad, hgv, hbr, DirState.initial]

/-- C4, at a concrete input: the directory `conf` of the sample world holds the
well-formed `good.json` and the malformed `bad.json` among entries that are
not selected. -/
theorem validateDirectory_merges_in_order_witness :
    firstFailure (sampleWorld.walk "conf") = none ∧
      validateDirectoryRun sampleWorld "conf" =
        { overallResult :=
            { valid := false,
              errors := ["JSON parse error at byte 2: syntax error while parsing object key"],
              warnings := [], fileType := "directory" },
          filesChecked := 2, filesValid := 1 } ∧
      (validateDirectory sampleWorld "conf").errors =
        ((visitedFiles (sampleWorld.walk "conf")).filter
            fun p => !(validateFile sampleWorld p).valid).flatMap
          (fun p => (validateFile sampleWorld p).errors) :=
  ⟨by decide, by decide,
    (validateDirectory_merges_in_order sampleWorld "conf" (by decide)).1.1⟩

/-- C5. After every prefix of the walk (the empty one, the one ending after any
visited file, the whole walk) the counters of the loop satisfy
`filesValid ≤ filesChecked`, and `filesChecked - filesValid` is the number of
visited files whose result was invalid; the same holds for the counters that
`validateDirectory` reports at the end. -/
theorem validateDirectory_counters (w : World) (dirPath : String) (k : Nat) :
    ((walkLoop w ((w.walk dirPath).take k) DirState.initial).1.filesValid ≤
        (walkLoop w ((w.walk dirPath).take k) DirState.initial).1.filesChecked ∧
      (walkLoop w ((w.walk dirPath).take k) DirState.initial).1.filesChecked -
          (walkLoop w ((w.walk dirPath).take k) DirState.initial).1.filesValid =
        ((visitedFiles ((w.walk dirPath).take k)).filter
          fun p => !(validateFile w p).valid).length) ∧
    ((validateDirectoryRun w dirPath).filesValid ≤ (validateDirectoryRun w dirPath).filesChecked ∧
      (validateDirectoryRun w dirPath).filesChecked - (validateDirectoryRun w dirPath).filesValid =
        ((visitedFiles (w.walk dirPath)).filter fun p => !(validateFile w p).valid).length) := by
  have key : ∀ files : List String,
      (foldFiles w files DirState.initial).filesValid ≤
          (foldFiles w files DirState.initial).filesChecked ∧
        (foldFiles w files DirState.initial).filesChecked -
            (foldFiles w files DirState.initial).filesValid =
          (files.filter fun p => !(validateFile w p).valid).length := by
    intro files
    have hsum := length_filter_add_length_filter_not files fun p => (validateFile w p).valid
    rw [foldFiles_filesChecked, foldFiles_filesValid]
    simp only [DirState.initial]
    omega
  refine ⟨?_, ?_⟩
  · rw [walkLoop_eq]
    exact key _
  · have hrun : (validateDirectoryRun w dirPath).filesChecked =
          (foldFiles w (visitedFiles (w.walk dirPath)) DirState.initial).filesChecked ∧
        (validateDirectoryRun w dirPath).filesValid =
          (foldFiles w (visitedFiles (w.walk dirPath)) DirState.initial).filesValid := by
      unfold validateDirectoryRun validateDirectoryOn
      rw [walkLoop_eq]
      cases firstFailure (w.walk dirPath) <;> exact ⟨rfl, rfl⟩
    rw [hrun.1, hrun.2]
    exact key _

/-! ## Result invariant (C6) -/

/-- C6. Every result returned by `validateJSON`, `validateYAML`, `validateTOML`,
`validateEnv`, `validateFile` (all its branches) and `validateDirectory` is
consistent: `valid = true` implies that `errors` is empty, and a non-empty
`errors` implies `valid = false`, whatever the warnings are. -/
theorem results_consistent (w : World) (content path dirPath : String) :
    (validateJSON w content).consistent ∧ (validateYAML w content).consistent ∧
      (validateTOML content).consistent ∧ (validateEnv content).consistent ∧
      (validateFile w path).consistent ∧ (validateDirectory w dirPath).consistent :=
  ⟨validateJSON_consistent w content, validateYAML_consistent w content,
    validateTOML_consistent content, validateEnv_consistent content,
    validateFile_consistent w path, validateDirectoryOn_consistent w (w.walk dirPath)⟩

/-! ## Structural validators (C8, C9) -/

/-- C8. A JSON text that parses is always reported valid without errors. A YAML
text that loads is reported valid without errors exactly when the inspection
code does not subscript a scalar: a document whose root is a scalar is
reported as `valid = false` with the error of the `"services"` lookup, and a
root sequence whose first element is a scalar with the error of the `"hosts"`
lookup. -/
theorem structural_validators_on_parsed_input (w : World) (content : String) :
    (∀ doc, w.jsonParse content = .ok doc →
      (validateJSON w content).valid = true ∧ (validateJSON w content).errors = []) ∧
    (∀ config, w.yamlLoad content = .ok config →
      (subscriptsScalar config = false →
        (validateYAML w content).valid = true ∧ (validateYAML w content).errors = []) ∧
      (∀ text, config = .scalar text →
        validateYAML w content =
          { valid := false,
            errors := ["YAML parse error: " ++ w.badSubscript (.scalar text) "services"],
            warnings := [], fileType := "YAML" }) ∧
      (∀ text rest, config = .sequence (.scalar text :: rest) →
        validateYAML w content =
          { valid := false,
            errors := ["YAML parse error: " ++ w.badSubscript (.scalar text) "hosts"],
            warnings := [], fileType := "YAML" })) := by
  refine ⟨?_, ?_⟩
  · intro doc hdoc
    simp [validateJSON, validateJSONRun, hdoc]
  · intro config hload
    refine ⟨?_, ?_, ?_⟩
    · intro hsafe
      obtain ⟨t, ht⟩ := yamlChecks_ok w config hsafe
      simp [validateYAML, validateYAMLRun, hload, ht]
    · intro text hcfg
      subst hcfg
      simp [validateYAML, validateYAMLRun, hload, yamlChecks, yamlCheckPlaybook, yamlCheckNull,
        yamlCheckCompose, YamlNode.hasKey, YamlNode.isNull]
    · intro text rest hcfg
      subst hcfg
      simp [validateYAML, validateYAMLRun, hload, yamlChecks, yamlCheckPlaybook, yamlCheckNull,
        YamlNode.hasKey, YamlNode.isNull]

/-- C8, at concrete inputs: the plain-scalar document `hello` and the sequence
of scalars `- a`, `- b` both load, and both are reported as parse errors. -/
theorem structural_validators_on_parsed_input_witness :
    sampleWorld.yamlLoad "hello" = .ok (.scalar "hello") ∧
      validateYAML sampleWorld "hello" =
        { valid := false, errors := ["YAML parse error: operator[] call on a scalar"],
          warnings := [], fileType := "YAML" } ∧
      validateYAML sampleWorld "- a\n- b\n" =
        { valid := false, errors := ["YAML parse error: operator[] call on a scalar"],
          warnings := [], fileType := "YAML" } :=
  ⟨rfl,
    ((structural_validators_on_parsed_input sampleWorld "hello").2 _ rfl).2.1 "hello" rfl,
    ((structural_validators_on_parsed_input sampleWorld "- a\n- b\n").2 _ rfl).2.2
      "a" [.scalar "b"] rfl⟩

/-- C9. When the JSON parse fails at byte offset `byte` with message `what`,
`validateJSON` returns `valid = false`, no warning, and the single error
"JSON parse error at byte " followed by the decimal offset, ": " and the
message. -/
theorem validateJSON_parse_error (w : World) (content what : String) (byte : Nat)
    (hparse : w.jsonParse content = .error (byte, what)) :
    validateJSON w content =
      { valid := false,
        errors := ["JSON parse error at byte " ++ toString byte ++ ": " ++ what],
        warnings := [], fileType := "JSON" } := by
  simp [validateJSON, validateJSONRun, hparse]

/-- C9, at a concrete input: the text `{bad json`, which the sample parser
rejects at byte 2. -/
theorem validateJSON_parse_error_witness :
    validateJSON sampleWorld "\x7bbad json" =
      { valid := false,
        errors := ["JSON parse error at byte 2: syntax error while parsing object key"],
        warnings := [], fileType := "JSON" } :=
  validateJSON_parse_error sampleWorld "\x7bbad json" "syntax error while parsing object key" 2
    rfl

/-! ## File validation fails closed (C10) -/

/-- C10. `validateFile` on a missing file returns `valid = false` with the single
error "File not found: " followed by the path, and on an existing file that
cannot be read `valid = false` with a single error that begins with
"Failed to read file: "; in both cases the result has no warning and the empty
`fileType` of a record no validator has touched. For a path dispatched to the
TOML or ENV validator, an existing readable file is always reported valid, so
the result is invalid exactly when the file is missing or unreadable. -/
theorem validateFile_fails_closed (w : World) (path : String) :
    (w.file path = .missing →
      validateFile w path =
        { valid := false, errors := ["File not found: " ++ path], warnings := [],
          fileType := "" }) ∧
    (w.file path = .unreadable →
      validateFile w path =
        { valid := false,
          errors := ["Failed to read file: " ++ ("Failed to open file: " ++ path)],
          warnings := [], fileType := "" }) ∧
    (detectFormat path = .toml ∨ detectFormat path = .env →
      (∀ content, w.file path = .readable content → (validateFile w path).valid = true) ∧
      ((validateFile w path).valid = false ↔
        w.file path = .missing ∨ w.file path = .unreadable)) := by
  have hmissing : w.file path = .missing →
      validateFile w path =
        { valid := false, errors := ["File not found: " ++ path], warnings := [],
          fileType := "" } := by
    intro h
    simp [validateFile, fileExists, h]
  have hunreadable : w.file path = .unreadable →
      validateFile w path =
        { valid := false,
          errors := ["Failed to read file: " ++ ("Failed to open file: " ++ path)],
          warnings := [], fileType := "" } := by
    intro h
    simp [validateFile, fileExists, readFile, h]
  refine ⟨hmissing, hunreadable, ?_⟩
  intro hfmt
  have hreadable : ∀ content, w.file path = .readable content →
      (validateFile w path).valid = true := by
    intro content h
    have hrun : validateFile w path =
        dispatchFile w path content
          { valid := false, errors := [], warnings := [], fileType := "" } := by
      simp [validateFile, fileExists, readFile, h]
    rw [hrun]
    unfold detectFormat at hfmt
    unfold dispatchFile
    simp only at hfmt ⊢
    split
    · rename_i h1; simp [h1] at hfmt
    · split
      · rename_i h1 h2; simp [h1, h2] at hfmt
      · split
        · rfl
        · split
          · rfl
          · rename_i h1 h2 h3 h4; simp [h1, h2, h3, h4] at hfmt
  refine ⟨hreadable, ?_⟩
  cases hstate : w.file path with
  | missing => simp [hmissing hstate]
  | unreadable => simp [hunreadable hstate]
  | readable content => simp [hreadable content hstate]

/-- C10, at concrete inputs: a missing path, an unreadable file, and the ENV
file of the sample world. -/
theorem validateFile_fails_closed_witness :
    validateFile sampleWorld "conf/nope.toml" =
        { valid := false, errors := ["File not found: conf/nope.toml"], warnings := [],
          fileType := "" } ∧
      validateFile sampleWorld "conf/secret.json" =
        { valid := false,
          errors := ["Failed to read file: " ++ ("Failed to open file: " ++ "conf/secret.json")],
          warnings := [], fileType := "" } ∧
      (validateFile sampleWorld "conf/.env").valid = true :=
  ⟨(validateFile_fails_closed sampleWorld "conf/nope.toml").1 (by decide),
    (validateFile_fails_closed sampleWorld "conf/secret.json").2.1 (by decide),
    ((validateFile_fails_closed sampleWorld "conf/.env").2.2 (by decide)).1 _ rfl⟩

/-! ## Pattern semantics

The derivative matcher decides membership in the language of a pattern, so a
search succeeds exactly when some piece of the text is in that language. -/

section Patterns

theorem Rx.matches_cat_nil (a b : Rx) :
    (Rx.cat a b).Matches [] ↔ a.Matches [] ∧ b.Matches [] := by
  constructor
  · rintro ⟨s1, s2, hs, ha, hb⟩
    have h := List.append_eq_nil.mp hs.symm
    rw [h.1] at ha
    rw [h.2] at hb
    exact ⟨ha, hb⟩
  · rintro ⟨ha, hb⟩
    exact ⟨[], [], rfl, ha, hb⟩

theorem Rx.nullable_iff (r : Rx) : r.nullable = true ↔ r.Matches [] := by
  induction r with
  | nothing => simp [Rx.nullable, Rx.Matches]
  | eps => simp [Rx.nullable, Rx.Matches]
  | cls p => simp [Rx.nullable, Rx.Matches]
  | cat a b iha ihb =>
    rw [Rx.matches_cat_nil, ← iha, ← ihb]
    simp [Rx.nullable]
  | alt a b iha ihb =>
    show (a.nullable || b.nullable) = true ↔ a.Matches [] ∨ b.Matches []
    rw [← iha, ← ihb]
    simp
  | star a _ =>
    simp only [Rx.nullable, true_iff]
    exact ⟨[], rfl, by simp⟩

/-- A nonempty word of `a*` splits into a nonempty word of `a` and a word of
`a*`. -/
theorem Rx.matches_star_cons (a : Rx) (c : Char) (s : List Char) :
    (Rx.star a).Matches (c :: s) ↔
      ∃ s1 s2, s = s1 ++ s2 ∧ a.Matches (c :: s1) ∧ (Rx.star a).Matches s2 := by
  constructor
  · rintro ⟨parts, hs, hparts⟩
    induction parts with
    | nil => simp at hs
    | cons p ps ih =>
      cases p with
      | nil =>
        apply ih
        · simpa using hs
        · intro q hq
          exact hparts q (List.mem_cons_of_mem _ hq)
      | cons c1 p1 =>
        simp only [List.flatten_cons, List.cons_append, List.cons.injEq] at hs
        refine ⟨p1, ps.flatten, hs.2, ?_, ps, rfl, ?_⟩
        · rw [hs.1]
          exact hparts _ (List.mem_cons_self _ _)
        · intro q hq
          exact hparts q (List.mem_cons_of_mem _ hq)
  · rintro ⟨s1, s2, hs, ha, parts, hs2, hparts⟩
    refine ⟨(c :: s1) :: parts, ?_, ?_⟩
    · simp [hs, hs2]
    · intro q hq
      rcases List.mem_cons.mp hq with h | h
      · rw [h]; exact ha
      · exact hparts q h

theorem Rx.matches_cat_cons (a b : Rx) (c : Char) (s : List Char) :
    (Rx.cat a b).Matches (c :: s) ↔
      (a.Matches [] ∧ b.Matches (c :: s)) ∨
        ∃ s1 s2, s = s1 ++ s2 ∧ a.Matches (c :: s1) ∧ b.Matches s2 := by
  constructor
  · rintro ⟨s1, s2, hs, ha, hb⟩
    cases s1 with
    | nil =>
      left
      simp only [List.nil_append] at hs
      rw [hs]
      exact ⟨ha, hb⟩
    | cons c1 t1 =>
      right
      simp only [List.cons_append, List.cons.injEq] at hs
      refine ⟨t1, s2, hs.2, ?_, hb⟩
      rw [hs.1]
      exact ha
  · rintro (⟨ha, hb⟩ | ⟨s1, s2, hs, ha, hb⟩)
    · exact ⟨[], c :: s, rfl, ha, hb⟩
    · exact ⟨c :: s1, s2, by simp [hs], ha, hb⟩

theorem Rx.deriv_iff (r : Rx) (c : Char) (s : List Char) :
    (r.deriv c).Matches s ↔ r.Matches (c :: s) := by
  induction r generalizing s with
  | nothing => simp [Rx.deriv, Rx.Matches]
  | eps => simp [Rx.deriv, Rx.Matches]
  | cls p =>
    cases hp : p c with
    | false =>
      simp only [Rx.deriv, hp, Rx.Matches, false_iff]
      rintro ⟨c1, hc1, hs⟩
      simp only [List.cons.injEq] at hs
      rw [← hs.1, hp] at hc1
      exact Bool.noConfusion hc1
    | true =>
      simp only [Rx.deriv, hp, Rx.Matches, if_true]
      constructor
      · intro hs
        exact ⟨c, hp, by rw [hs]⟩
      · rintro ⟨c1, _, hs⟩
        simp only [List.cons.injEq] at hs
        exact hs.2
  | cat a b iha ihb =>
    rw [Rx.matches_cat_cons]
    cases hn : a.nullable with
    | true =>
      have hnil : a.Matches [] := (Rx.nullable_iff a).mp hn
      simp only [Rx.deriv, hn, if_true]
      show (Rx.cat (a.deriv c) b).Matches s ∨ (b.deriv c).Matches s ↔ _
      rw [ihb]
      constructor
      · rintro (⟨s1, s2, hs, ha, hb⟩ | hb)
        · exact Or.inr ⟨s1, s2, hs, (iha s1).mp ha, hb⟩
        · exact Or.inl ⟨hnil, hb⟩
      · rintro (⟨_, hb⟩ | ⟨s1, s2, hs, ha, hb⟩)
        · exact Or.inr hb
        · exact Or.inl ⟨s1, s2, hs, (iha s1).mpr ha, hb⟩
    | false =>
      have hnil : ¬ a.Matches [] := by
        intro h
        rw [(Rx.nullable_iff a).mpr h] at hn
        exact Bool.noConfusion hn
      simp only [Rx.deriv, hn]
      show (Rx.cat (a.deriv c) b).Matches s ↔ _
      constructor
      · rintro ⟨s1, s2, hs, ha, hb⟩
        exact Or.inr ⟨s1, s2, hs, (iha s1).mp ha, hb⟩
      · rintro (⟨ha, _⟩ | ⟨s1, s2, hs, ha, hb⟩)
        · exact absurd ha hnil
        · exact ⟨s1, s2, hs, (iha s1).mpr ha, hb⟩
  | alt a b iha ihb =>
    show (a.deriv c).Matches s ∨ (b.deriv c).Matches s ↔ a.Matches (c :: s) ∨ b.Matches (c :: s)
    rw [iha, ihb]
  | star a iha =>
    rw [Rx.matches_star_cons]
    show (Rx.cat (a.deriv c) (Rx.star a)).Matches s ↔ _
    constructor
    · rintro ⟨s1, s2, hs, ha, hb⟩
      exact ⟨s1, s2, hs, (iha s1).mp ha, hb⟩
    · rintro ⟨s1, s2, hs, ha, hb⟩
      exact ⟨s1, s2, hs, (iha s1).mpr ha, hb⟩

/-- The matcher decides the language of the pattern. -/
theorem Rx.accepts_iff (r : Rx) (s : List Char) : r.accepts s = true ↔ r.Matches s := by
  induction s generalizing r with
  | nil => exact Rx.nullable_iff r
  | cons c cs ih =>
    show (r.deriv c).accepts cs = true ↔ _
    rw [ih, Rx.deriv_iff]

theorem Rx.matches_star_cls (p : Char → Bool) (s : List Char) :
    (Rx.star (Rx.cls p)).Matches s ↔ ∀ c ∈ s, p c = true := by
  induction s with
  | nil =>
    simp only [List.not_mem_nil, false_imp_iff, implies_true, iff_true]
    exact ⟨[], rfl, by simp⟩
  | cons c cs ih =>
    rw [Rx.matches_star_cons]
    constructor
    · rintro ⟨s1, s2, hs, ⟨c1, hc1, hc⟩, hrest⟩
      simp only [List.cons.injEq] at hc
      rw [hc.2, List.nil_append] at hs
      intro x hx
      rcases List.mem_cons.mp hx with h | h
      · rw [h, hc.1]; exact hc1
      · exact ih.mp (hs ▸ hrest) x h
    · intro h
      refine ⟨[], cs, rfl, ⟨c, h c (List.mem_cons_self _ _), rfl⟩, ih.mpr ?_⟩
      intro x hx
      exact h x (List.mem_cons_of_mem _ hx)

theorem Rx.matches_anything (s : List Char) : Rx.anything.Matches s :=
  (Rx.matches_star_cls _ s).mpr fun _ _ => rfl

theorem Rx.matches_lit (c : Char) (s : List Char) : (Rx.lit c).Matches s ↔ s = [c] := by
  constructor
  · rintro ⟨c1, hc1, hs⟩
    have : c1 = c := by simpa using hc1
    rw [hs, this]
  · intro hs
    exact ⟨c, by simp, hs⟩

theorem Rx.matches_plus_cls (p : Char → Bool) (s : List Char) :
    (Rx.plus (Rx.cls p)).Matches s ↔ s ≠ [] ∧ ∀ c ∈ s, p c = true := by
  constructor
  · rintro ⟨s1, s2, hs, ⟨c, hc, hs1⟩, hstar⟩
    rw [hs, hs1]
    refine ⟨by simp, ?_⟩
    intro x hx
    rcases List.mem_cons.mp hx with h | h
    · rw [h]; exact hc
    · exact (Rx.matches_star_cls p s2).mp hstar x h
  · rintro ⟨hne, hall⟩
    cases s with
    | nil => exact absurd rfl hne
    | cons c cs =>
      refine ⟨[c], cs, rfl, ⟨c, hall c (List.mem_cons_self _ _), rfl⟩, ?_⟩
      exact (Rx.matches_star_cls p cs).mpr fun x hx => hall x (List.mem_cons_of_mem _ hx)

/-- An unanchored search succeeds exactly when some piece of the text is a
word of the pattern. -/
theorem regexSearch_iff (r : Rx) (s : List Char) :
    regexSearch r s = true ↔ ∃ pre mid post, s = pre ++ mid ++ post ∧ r.Matches mid := by
  unfold regexSearch
  rw [Rx.accepts_iff]
  constructor
  · rintro ⟨pre, rest, hs, _, mid, post, hrest, hmid, _⟩
    exact ⟨pre, mid, post, by rw [hs, hrest, List.append_assoc], hmid⟩
  · rintro ⟨pre, mid, post, hs, hmid⟩
    exact ⟨pre, mid ++ post, by rw [hs, List.append_assoc], Rx.matches_anything pre,
      mid, post, rfl, hmid, Rx.matches_anything post⟩

/-- A search anchored at the start succeeds exactly when some prefix of the
text is a word of the pattern. -/
theorem regexSearchAtStart_iff (r : Rx) (s : List Char) :
    regexSearchAtStart r s = true ↔ ∃ mid post, s = mid ++ post ∧ r.Matches mid := by
  unfold regexSearchAtStart
  rw [Rx.accepts_iff]
  constructor
  · rintro ⟨mid, post, hs, hmid, _⟩
    exact ⟨mid, post, hs, hmid⟩
  · rintro ⟨mid, post, hs, hmid⟩
    exact ⟨mid, post, hs, hmid, Rx.matches_anything post⟩

end Patterns

/-! ## Format detection (C11, C12, C19) -/

section Formats

theorem lastDotSuffix_none_iff (l : List Char) : lastDotSuffix l = none ↔ '.' ∉ l := by
  induction l with
  | nil => simp [lastDotSuffix]
  | cons c cs ih =>
    unfold lastDotSuffix
    cases hcs : lastDotSuffix cs with
    | some e =>
      have hmem : '.' ∈ cs := by
        by_contra hno
        rw [ih.mpr hno] at hcs
        exact Option.noConfusion hcs
      simp [hmem]
    | none =>
      have hno : '.' ∉ cs := ih.mp hcs
      by_cases hc : c = '.'
      · simp [hc]
      · have hc1 : ¬ '.' = c := fun h => hc h.symm
        simp [hc, hc1, hno]

/-- The extension starts at the last dot: what follows it holds no dot. -/
theorem lastDotSuffix_of_split (pre rest : List Char) (hrest : '.' ∉ rest) :
    lastDotSuffix (pre ++ '.' :: rest) = some ('.' :: rest) := by
  induction pre with
  | nil =>
    simp only [List.nil_append]
    unfold lastDotSuffix
    rw [(lastDotSuffix_none_iff rest).mpr hrest]
    simp
  | cons c cs ih =>
    simp only [List.cons_append]
    unfold lastDotSuffix
    rw [ih]

theorem containsSubstr_iff (pat s : List Char) :
    containsSubstr pat s = true ↔ ∃ pre post, s = pre ++ pat ++ post := by
  induction s with
  | nil =>
    simp only [containsSubstr, List.isEmpty_iff]
    constructor
    · intro h
      exact ⟨[], [], by simp [h]⟩
    · rintro ⟨pre, post, h⟩
      have h1 := List.append_eq_nil.mp h.symm
      exact (List.append_eq_nil.mp h1.1).2
  | cons c cs ih =>
    simp only [containsSubstr, Bool.or_eq_true, List.isPrefixOf_iff_prefix, ih]
    constructor
    · rintro (⟨post, h⟩ | ⟨pre, post, h⟩)
      · exact ⟨[], post, by simp [h]⟩
      · exact ⟨c :: pre, post, by simp [h]⟩
    · rintro ⟨pre, post, h⟩
      cases pre with
      | nil => exact Or.inl ⟨post, by simpa using h.symm⟩
      | cons c1 pre1 =>
        simp only [List.cons_append, List.cons.injEq] at h
        exact Or.inr ⟨pre1, post, h.2⟩

/-- The `if` chain of `validateFile` runs the validator of the detected
format and depends on the path through that format only. -/
theorem dispatchFile_eq (w : World) (path content : String) (result : ValidationResult) :
    dispatchFile w path content result =
      match detectFormat path with
      | .json => validateJSON w content
      | .yaml => validateYAML w content
      | .toml => validateTOML content
      | .env => validateEnv content
      | .unknown => validateUnknown w content result := by
  unfold dispatchFile detectFormat
  simp only
  split
  · rfl
  · split
    · rfl
    · split
      · rfl
      · split <;> rfl

theorem detectFormat_cases (path : String) :
    (detectFormat path = .json ↔ getFileExtension path = ".json") ∧
    (detectFormat path = .yaml ↔
      getFileExtension path = ".yaml" ∨ getFileExtension path = ".yml") ∧
    (detectFormat path = .toml ↔ getFileExtension path = ".toml") ∧
    (detectFormat path = .env ↔
      (getFileExtension path ≠ ".json" ∧ getFileExtension path ≠ ".yaml" ∧
        getFileExtension path ≠ ".yml" ∧ getFileExtension path ≠ ".toml") ∧
      containsDotEnv path = true) ∧
    (detectFormat path = .unknown ↔
      (getFileExtension path ≠ ".json" ∧ getFileExtension path ≠ ".yaml" ∧
        getFileExtension path ≠ ".yml" ∧ getFileExtension path ≠ ".toml") ∧
      containsDotEnv path = false) := by
  have henv : getFileExtension path = ".env" → containsDotEnv path = true :=
    containsDotEnv_of_ext path
  unfold detectFormat
  simp only
  by_cases h1 : getFileExtension path = ".json"
  · simp [h1]
  · by_cases h2 : getFileExtension path = ".yaml"
    · simp [h2]
    · by_cases h3 : getFileExtension path = ".yml"
      · simp [h3]
      · by_cases h4 : getFileExtension path = ".toml"
        · simp [h4]
        · by_cases h5 : getFileExtension path = ".env"
          · simp [h5, henv h5]
          · cases h6 : containsDotEnv path <;> simp [h1, h2, h3, h4, h5]

theorem selectsPath_eq (path : String) :
    selectsPath path = !(decide (detectFormat path = .unknown)) := by
  unfold selectsPath detectFormat
  simp only
  by_cases h1 : getFileExtension path = ".json"
  · simp [h1]
  · by_cases h2 : getFileExtension path = ".yaml"
    · simp [h2]
    · by_cases h3 : getFileExtension path = ".yml"
      · simp [h3]
      · by_cases h4 : getFileExtension path = ".toml"
        · simp [h4]
        · by_cases h5 : getFileExtension path = ".env"
          · simp [h5]
          · cases h6 : containsDotEnv path <;> simp [h1, h2, h3, h4, h5]

theorem selectsPath_of_mem_visitedFiles (walk : List WalkEvent) (p : String)
    (hp : p ∈ visitedFiles walk) : selectsPath p = true := by
  unfold visitedFiles at hp
  simp only [List.mem_map, List.mem_filter, Bool.and_eq_true] at hp
  obtain ⟨e, ⟨_, _, hsel⟩, he⟩ := hp
  rw [← he]
  exact hsel

theorem validateJSON_fileType (w : World) (content : String) :
    (validateJSON w content).fileType = "JSON" := by
  unfold validateJSON validateJSONRun
  cases w.jsonParse content <;> rfl

theorem validateYAML_fileType (w : World) (content : String) :
    (validateYAML w content).fileType = "YAML" := by
  unfold validateYAML validateYAMLRun
  cases w.yamlLoad content with
  | error e => rfl
  | ok config =>
    dsimp only
    cases yamlChecks w config <;> rfl

theorem validateFile_readable (w : World) (path content : String)
    (h : w.file path = .readable content) :
    validateFile w path =
      dispatchFile w path content
        { valid := false, errors := [], warnings := [], fileType := "" } := by
  simp [validateFile, fileExists, readFile, h]

end Formats

/-- C11. Format detection is a function of the path alone. The extension is the
suffix that starts at the last dot of the path (empty when the path has no
dot); the format is JSON exactly for the extension `.json`, YAML exactly for
`.yaml` or `.yml`, TOML exactly for `.toml`, ENV exactly when none of these
holds and the path contains `.env` somewhere, and Unknown otherwise; the
dispatch of `validateFile` runs the validator of that format whatever the
content is. Matching is case-sensitive and the extension takes precedence over
the `.env` substring. -/
theorem detectFormat_spec (path : String) :
    (('.' ∉ path.data → getFileExtension path = "") ∧
      (∀ pre rest, path.data = pre ++ '.' :: rest → '.' ∉ rest →
        getFileExtension path = String.mk ('.' :: rest))) ∧
    (containsDotEnv path = true ↔ ∃ pre post, path.data = pre ++ ".env".data ++ post) ∧
    ((detectFormat path = .json ↔ getFileExtension path = ".json") ∧
      (detectFormat path = .yaml ↔
        getFileExtension path = ".yaml" ∨ getFileExtension path = ".yml") ∧
      (detectFormat path = .toml ↔ getFileExtension path = ".toml") ∧
      (detectFormat path = .env ↔
        (getFileExtension path ≠ ".json" ∧ getFileExtension path ≠ ".yaml" ∧
          getFileExtension path ≠ ".yml" ∧ getFileExtension path ≠ ".toml") ∧
        containsDotEnv path = true) ∧
      (detectFormat path = .unknown ↔
        (getFileExtension path ≠ ".json" ∧ getFileExtension path ≠ ".yaml" ∧
          getFileExtension path ≠ ".yml" ∧ getFileExtension path ≠ ".toml") ∧
        containsDotEnv path = false)) ∧
    (∀ (w : World) (content : String) (result : ValidationResult),
      dispatchFile w path content result =
        match detectFormat path with
        | .json => validateJSON w content
        | .yaml => validateYAML w content
        | .toml => validateTOML content
        | .env => validateEnv content
        | .unknown => validateUnknown w content result) ∧
    (detectFormat "a.JSON" = .unknown ∧ detectFormat "app.env.json" = .json ∧
      detectFormat ".env.local" = .env ∧ detectFormat "x/.envrc" = .env) := by
  refine ⟨⟨?_, ?_⟩, ?_, detectFormat_cases path, ?_, ?_⟩
  · intro hno
    unfold getFileExtension
    rw [(lastDotSuffix_none_iff path.data).mpr hno]
  · intro pre rest hsplit hrest
    unfold getFileExtension
    rw [hsplit, lastDotSuffix_of_split pre rest hrest]
  · exact containsSubstr_iff _ _
  · intro w content result
    exact dispatchFile_eq w path content result
  · decide

/-- C12, as stated, fails: for a missing file and for an unreadable file the
returned `fileType` is the empty string, which is none of the six listed
values. -/
theorem fileType_empty_on_hard_error :
    sampleWorld.file "conf/nope.toml" = .missing ∧
      (validateFile sampleWorld "conf/nope.toml").fileType = "" ∧
      (validateFile sampleWorld "conf/nope.toml").fileType ∉
        ["JSON", "YAML", "TOML", "ENV", "directory", "unknown"] ∧
      sampleWorld.file "conf/secret.json" = .unreadable ∧
      (validateFile sampleWorld "conf/secret.json").fileType ∉
        ["JSON", "YAML", "TOML", "ENV", "directory", "unknown"] := by
  decide

/-- C12, amended. `validateDirectory` always returns the `fileType`
"directory". `validateFile` returns the empty `fileType` when the file is
missing or cannot be read, and otherwise the label of the validator it ran:
"JSON", "YAML", "TOML" or "ENV", with "JSON" for a file of Unknown format. The
value "unknown" is never produced. -/
theorem fileType_values (w : World) (path dirPath : String) :
    (validateDirectory w dirPath).fileType = "directory" ∧
    (w.file path = .missing ∨ w.file path = .unreadable →
      (validateFile w path).fileType = "") ∧
    (∀ content, w.file path = .readable content →
      (validateFile w path).fileType = (detectFormat path).label) ∧
    (validateFile w path).fileType ∈ ["JSON", "YAML", "TOML", "ENV", ""] ∧
    (validateFile w path).fileType ≠ "unknown" := by
  have hdir : (validateDirectory w dirPath).fileType = "directory" := by
    unfold validateDirectory validateDirectoryRun validateDirectoryOn
    rw [walkLoop_eq]
    cases firstFailure (w.walk dirPath) <;> simp [foldFiles_fileType, DirState.initial]
  have hhard : w.file path = .missing ∨ w.file path = .unreadable →
      (validateFile w path).fileType = "" := by
    rintro (h | h) <;> simp [validateFile, fileExists, readFile, h]
  have hread : ∀ content, w.file path = .readable content →
      (validateFile w path).fileType = (detectFormat path).label := by
    intro content h
    rw [validateFile_readable w path content h, dispatchFile_eq]
    cases detectFormat path
    · exact validateJSON_fileType w content
    · exact validateYAML_fileType w content
    · rfl
    · rfl
    · exact validateJSON_fileType w content
  have hmem : (validateFile w path).fileType ∈ ["JSON", "YAML", "TOML", "ENV", ""] := by
    cases hstate : w.file path with
    | missing => rw [hhard (Or.inl hstate)]; decide
    | unreadable => rw [hhard (Or.inr hstate)]; decide
    | readable content =>
      rw [hread content hstate]
      cases detectFormat path <;> decide
  refine ⟨hdir, hhard, hread, hmem, ?_⟩
  intro hunk
  rw [hunk] at hmem
  exact absurd hmem (by decide)

/-- C12 amended, at concrete inputs of the sample world. -/
theorem fileType_values_witness :
    (validateDirectory sampleWorld "conf").fileType = "directory" ∧
      (validateFile sampleWorld "conf/nope.toml").fileType = "" ∧
      (validateFile sampleWorld "conf/notes.txt").fileType = "JSON" ∧
      (validateFile sampleWorld "conf/.env").fileType = "ENV" :=
  ⟨(fileType_values sampleWorld "conf/nope.toml" "conf").1,
    (fileType_values sampleWorld "conf/nope.toml" "conf").2.1 (Or.inl (by decide)),
    (fileType_values sampleWorld "conf/notes.txt" "conf").2.2.1 _ rfl,
    (fileType_values sampleWorld "conf/.env" "conf").2.2.1 _ rfl⟩

/-- C19. The file filter of `validateDirectory` and the dispatch of
`validateFile` agree on every path: the filter selects a path exactly when
the dispatch takes one of the four positive branches (JSON, YAML, TOML, ENV),
and it skips a path exactly when the dispatch takes the Unknown fallback. No
file visited by a walk is of Unknown format, and no path of Unknown format is
visited. -/
theorem selectsPath_iff_dispatched (path : String) :
    (selectsPath path = true ↔
      detectFormat path = .json ∨ detectFormat path = .yaml ∨
        detectFormat path = .toml ∨ detectFormat path = .env) ∧
    (selectsPath path = false ↔ detectFormat path = .unknown) ∧
    (∀ (w : World) (content : String) (result : ValidationResult),
      (selectsPath path = true →
        dispatchFile w path content result =
          match detectFormat path with
          | .json => validateJSON w content
          | .yaml => validateYAML w content
          | .toml => validateTOML content
          | _ => validateEnv content) ∧
      (selectsPath path = false →
        dispatchFile w path content result = validateUnknown w content result)) ∧
    (∀ walk : List WalkEvent,
      (path ∈ visitedFiles walk → detectFormat path ≠ .unknown) ∧
      (detectFormat path = .unknown → path ∉ visitedFiles walk)) := by
  have hsel := selectsPath_eq path
  refine ⟨?_, ?_, ?_, ?_⟩
  · rw [hsel]
    cases detectFormat path <;> simp
  · rw [hsel]
    cases detectFormat path <;> simp
  · intro w content result
    rw [dispatchFile_eq, hsel]
    cases detectFormat path <;> simp
  · intro walk
    have hvis : path ∈ visitedFiles walk → detectFormat path ≠ .unknown := by
      intro hp hunk
      have h := selectsPath_of_mem_visitedFiles walk path hp
      rw [hsel, hunk] at h
      simp at h
    exact ⟨hvis, fun hunk hp => hvis hp hunk⟩

/-- C19, at concrete inputs: a selected path and a skipped one of the sample
world. -/
theorem selectsPath_iff_dispatched_witness :
    selectsPath "conf/.env" = true ∧ detectFormat "conf/.env" = .env ∧
      selectsPath "conf/README" = false ∧ detectFormat "conf/README" = .unknown ∧
      "conf/README" ∉ visitedFiles (sampleWorld.walk "conf") :=
  ⟨by decide, by decide, by decide,
    (selectsPath_iff_dispatched "conf/README").2.1.mp (by decide),
    ((selectsPath_iff_dispatched "conf/README").2.2.2 _).2 (by decide)⟩

/-! ## Compose-file warning of the YAML validator (C13) -/

section Compose

theorem yamlCheckCompose_of_ok (w : World) (config : YamlNode) (t : YamlTrace) (b1 b2 : Bool)
    (h1 : config.hasKey w "services" = .ok b1) (h2 : config.hasKey w "version" = .ok b2) :
    ∃ t1, yamlCheckCompose w config t = .ok t1 ∧
      t1.warnings = t.warnings ++
        (if b1 && !b2 then ["Docker Compose 'version' field missing"] else []) := by
  unfold yamlCheckCompose
  rw [h1]
  cases b1 with
  | false => exact ⟨t, rfl, by simp⟩
  | true =>
    dsimp only
    rw [h2]
    cases b2 with
    | false => exact ⟨_, rfl, by simp⟩
    | true => exact ⟨_, rfl, by simp⟩

theorem yamlCheckKubernetes_of_ok (w : World) (config : YamlNode) (t : YamlTrace) (b1 b2 : Bool)
    (h1 : config.hasKey w "apiVersion" = .ok b1) (h2 : config.hasKey w "kind" = .ok b2) :
    ∃ t1, yamlCheckKubernetes w config t = .ok t1 ∧ t1.warnings = t.warnings := by
  unfold yamlCheckKubernetes
  rw [h1]
  cases b1 with
  | false => exact ⟨t, rfl, rfl⟩
  | true =>
    dsimp only
    rw [h2]
    cases b2 with
    | false => exact ⟨_, rfl, rfl⟩
    | true => exact ⟨_, rfl, rfl⟩

theorem yamlChecks_warnings (w : World) (config : YamlNode) :
    yamlTraceWarnings (yamlChecks w config) =
      (if config.isNull then ["YAML file is empty"] else []) ++
        (if rootHasKey config "services" && !rootHasKey config "version" then
          ["Docker Compose 'version' field missing"] else []) := by
  cases config with
  | null => rfl
  | scalar text => rfl
  | sequence items =>
    cases items with
    | nil => rfl
    | cons first rest =>
      cases first with
      | null => rfl
      | scalar text => rfl
      | sequence inner => rfl
      | mapping pairs =>
        unfold yamlChecks yamlCheckPlaybook
        dsimp only [YamlNode.hasKey]
        cases pairs.any fun kv => YamlNode.keyEquals kv.1 "hosts" <;> rfl
  | mapping pairs =>
    obtain ⟨t1, h1, hw1⟩ := yamlCheckCompose_of_ok w (.mapping pairs)
      (yamlCheckNull (.mapping pairs) ⟨[], []⟩) _ _ rfl rfl
    obtain ⟨t2, h2, hw2⟩ := yamlCheckKubernetes_of_ok w (.mapping pairs) t1 _ _ rfl rfl
    unfold yamlChecks
    simp only [yamlCheckPlaybook]
    rw [h1]
    dsimp only
    rw [h2]
    simp only [yamlTraceWarnings, hw2, hw1]
    rfl
theorem yamlChecks_error (w : World) (config : YamlNode) (h : subscriptsScalar config = true) :
    ∃ t e, yamlChecks w config = .error (t, e) := by
  cases config with
  | null => simp [subscriptsScalar] at h
  | mapping pairs => simp [subscriptsScalar] at h
  | scalar text => exact ⟨_, _, rfl⟩
  | sequence items =>
    cases items with
    | nil => simp [subscriptsScalar] at h
    | cons first rest =>
      cases first with
      | scalar text => exact ⟨_, _, rfl⟩
      | null => simp [subscriptsScalar] at h
      | sequence inner => simp [subscriptsScalar] at h
      | mapping pairs => simp [subscriptsScalar] at h

theorem validateYAML_of_load (w : World) (content : String) (config : YamlNode)
    (hload : w.yamlLoad content = .ok config) :
    (validateYAML w content).warnings = yamlTraceWarnings (yamlChecks w config) ∧
      (validateYAML w content).valid = !subscriptsScalar config ∧
      ((validateYAML w content).valid = true → (validateYAML w content).errors = []) := by
  unfold validateYAML validateYAMLRun
  rw [hload]
  dsimp only
  cases hs : subscriptsScalar config with
  | false =>
    obtain ⟨t, ht⟩ := yamlChecks_ok w config hs
    rw [ht]
    simp [yamlTraceWarnings]
  | true =>
    obtain ⟨t, e, ht⟩ := yamlChecks_error w config hs
    rw [ht]
    simp [yamlTraceWarnings]

end Compose

/-- C13. For every YAML text that loads, the warnings of `validateYAML` are the
empty-document warning (for a null document) followed by the compose warning
(for a root mapping that holds `services` and no `version`); the playbook and
cluster-manifest checks contribute nothing, whatever `hosts`, `apiVersion` and
`kind` are. So "Docker Compose 'version' field missing" is among the warnings
exactly when the root mapping holds `services` and lacks `version`, and then
the result is valid without errors. The result as a whole is valid exactly
when the inspection does not subscript a scalar node. -/
theorem validateYAML_compose_warning (w : World) (content : String) (config : YamlNode)
    (hload : w.yamlLoad content = .ok config) :
    (validateYAML w content).warnings =
        (if config.isNull then ["YAML file is empty"] else []) ++
          (if rootHasKey config "services" && !rootHasKey config "version" then
            ["Docker Compose 'version' field missing"] else []) ∧
      ("Docker Compose 'version' field missing" ∈ (validateYAML w content).warnings ↔
        rootHasKey config "services" = true ∧ rootHasKey config "version" = false) ∧
      ("Docker Compose 'version' field missing" ∈ (validateYAML w content).warnings →
        (validateYAML w content).valid = true ∧ (validateYAML w content).errors = []) ∧
      (validateYAML w content).valid = !subscriptsScalar config := by
  obtain ⟨hwarn, hvalid, herr⟩ := validateYAML_of_load w content config hload
  rw [yamlChecks_warnings] at hwarn
  have hiff : "Docker Compose 'version' field missing" ∈ (validateYAML w content).warnings ↔
      rootHasKey config "services" = true ∧ rootHasKey config "version" = false := by
    rw [hwarn]
    cases config.isNull <;> cases rootHasKey config "services" <;>
      cases rootHasKey config "version" <;> decide
  refine ⟨hwarn, hiff, ?_, hvalid⟩
  intro hmem
  have hserv := (hiff.mp hmem).1
  have hv : (validateYAML w content).valid = true := by
    rw [hvalid]
    cases config with
    | mapping pairs => rfl
    | null => simp [rootHasKey] at hserv
    | scalar text => simp [rootHasKey] at hserv
    | sequence items => simp [rootHasKey] at hserv
  exact ⟨hv, herr hv⟩

/-- C13, at concrete inputs: the compose file without `version` of the spec
scenario, and the plain-scalar document `hello`, which loads and is reported
invalid. -/
theorem validateYAML_compose_warning_witness :
    validateYAML composeWorld "services:\n  web:\n    image: x" =
        { valid := true, errors := [],
          warnings := ["Docker Compose 'version' field missing"], fileType := "YAML" } ∧
      ("Docker Compose 'version' field missing" ∈
          (validateYAML composeWorld "services:\n  web:\n    image: x").warnings ↔
        rootHasKey
            (.mapping [(.scalar "services",
              .mapping [(.scalar "web", .mapping [(.scalar "image", .scalar "x")])])])
            "services" = true ∧
          rootHasKey
            (.mapping [(.scalar "services",
              .mapping [(.scalar "web", .mapping [(.scalar "image", .scalar "x")])])])
            "version" = false) ∧
      composeWorld.yamlLoad "hello" = .ok (.scalar "hello") ∧
      (validateYAML composeWorld "hello").valid = false :=
  ⟨by decide,
    (validateYAML_compose_warning composeWorld "services:\n  web:\n    image: x" _ rfl).2.1,
    rfl, by decide⟩

/-! ## The TOML line checker (C14, C17) -/

section Toml

theorem tomlLine_eq (lineNum : Nat) (line : List Char) (st : TomlState) :
    tomlLine lineNum line st =
      { warnings := st.warnings ++ tomlLineWarnings lineNum line,
        hasContent := st.hasContent || tomlHasContent line } := by
  unfold tomlLine tomlLineWarnings tomlFlagged tomlHasContent tomlMessage
  simp only
  by_cases h1 : ((trimLeft line).isEmpty || (trimLeft line).head? == some '#') = true
  · simp [h1]
  · by_cases h2 : (!regexSearch sectionRegex (trimLeft line) &&
        !regexSearch keyValueRegex (trimLeft line)) = true
    · simp [h1, h2]
    · simp [h1, h2]

theorem tomlLoop_eq (lines : List (List Char)) (lineNum : Nat) (st : TomlState) :
    tomlLoop lines lineNum st =
      { warnings := st.warnings ++
          (lines.enumFrom (lineNum + 1)).flatMap fun e => tomlLineWarnings e.1 e.2,
        hasContent := st.hasContent || lines.any tomlHasContent } := by
  induction lines generalizing lineNum st with
  | nil => simp [tomlLoop]
  | cons line rest ih =>
    simp only [tomlLoop, ih, tomlLine_eq, List.enumFrom_cons, List.flatMap_cons, List.any_cons,
      List.append_assoc, Bool.or_assoc]

theorem validateTOML_warnings_eq (content : String) :
    (validateTOML content).warnings =
      ((getlines content).enumFrom 1).flatMap (fun e => tomlLineWarnings e.1 e.2) ++
        (if (getlines content).any tomlHasContent then []
          else ["TOML file appears to be empty"]) := by
  unfold validateTOML
  simp only [tomlLoop_eq, Bool.false_or, List.nil_append, Nat.zero_add]
  cases (getlines content).any tomlHasContent <;> simp

theorem flatMap_tomlLineWarnings (numbered : List (Nat × List Char)) :
    numbered.flatMap (fun e => tomlLineWarnings e.1 e.2) =
      (numbered.filter fun e => tomlFlagged e.2).map fun e => tomlMessage e.1 e.2 := by
  induction numbered with
  | nil => rfl
  | cons e rest ih =>
    rw [List.flatMap_cons, ih, List.filter_cons]
    cases hf : tomlFlagged e.2 <;> simp [tomlLineWarnings, hf]

theorem Rx.matches_cat (a b : Rx) (s : List Char) :
    (Rx.cat a b).Matches s ↔ ∃ s1 s2, s = s1 ++ s2 ∧ a.Matches s1 ∧ b.Matches s2 :=
  Iff.rfl

theorem matches_sectionRegex (s : List Char) : sectionRegex.Matches s ↔ IsSectionHeader s := by
  unfold sectionRegex IsSectionHeader
  simp only [Rx.matches_cat, Rx.matches_lit, Rx.matches_plus_cls]
  constructor
  · rintro ⟨s1, s2, hs, hs1, s3, s4, hs2, ⟨hne, hall⟩, hs4⟩
    exact ⟨s3, by simp [hs, hs1, hs2, hs4], hne, hall⟩
  · rintro ⟨name, hs, hne, hall⟩
    exact ⟨['['], name ++ [']'], by simp [hs], rfl, name, [']'], rfl, ⟨hne, hall⟩, rfl⟩

theorem matches_keyValueRegex (s : List Char) : keyValueRegex.Matches s ↔ IsKeyValue s := by
  unfold keyValueRegex IsKeyValue
  simp only [Rx.matches_cat, Rx.matches_lit, Rx.matches_plus_cls, Rx.matches_star_cls]
  constructor
  · rintro ⟨key, r1, hs, ⟨hkne, hkey⟩, ws1, r2, hr1, hws1, eq, r3, hr2, heq, ws2, value, hr3,
      hws2, hvne, hvalue⟩
    exact ⟨key, ws1, ws2, value, by simp [hs, hr1, hr2, heq, hr3], hkne, hkey, hws1, hws2,
      hvne, hvalue⟩
  · rintro ⟨key, ws1, ws2, value, hs, hkne, hkey, hws1, hws2, hvne, hvalue⟩
    exact ⟨key, ws1 ++ '=' :: (ws2 ++ value), by simp [hs], ⟨hkne, hkey⟩, ws1,
      '=' :: (ws2 ++ value), rfl, hws1, ['='], ws2 ++ value, rfl, rfl, ws2, value, rfl, hws2,
      hvne, hvalue⟩

/-- A line with content is left unflagged exactly when a piece of its trimmed
text has one of the two shapes. -/
theorem tomlFlagged_eq_false_iff (line : List Char) (hcontent : tomlHasContent line = true) :
    tomlFlagged line = false ↔
      ∃ pre mid post, trimLeft line = pre ++ mid ++ post ∧
        (IsSectionHeader mid ∨ IsKeyValue mid) := by
  have hflag : tomlFlagged line =
      (tomlHasContent line &&
        (!regexSearch sectionRegex (trimLeft line) &&
          !regexSearch keyValueRegex (trimLeft line))) := rfl
  rw [hflag, hcontent, Bool.true_and]
  have h1 := regexSearch_iff sectionRegex (trimLeft line)
  have h2 := regexSearch_iff keyValueRegex (trimLeft line)
  constructor
  · intro h
    cases hs : regexSearch sectionRegex (trimLeft line) with
    | true =>
      obtain ⟨pre, mid, post, ht, hm⟩ := h1.mp hs
      exact ⟨pre, mid, post, ht, Or.inl ((matches_sectionRegex mid).mp hm)⟩
    | false =>
      cases hk : regexSearch keyValueRegex (trimLeft line) with
      | true =>
        obtain ⟨pre, mid, post, ht, hm⟩ := h2.mp hk
        exact ⟨pre, mid, post, ht, Or.inr ((matches_keyValueRegex mid).mp hm)⟩
      | false => simp [hs, hk] at h
  · rintro ⟨pre, mid, post, ht, hm | hm⟩
    · rw [h1.mpr ⟨pre, mid, post, ht, (matches_sectionRegex mid).mpr hm⟩]
      rfl
    · rw [h2.mpr ⟨pre, mid, post, ht, (matches_keyValueRegex mid).mpr hm⟩]
      simp

end Toml

/-- C14, as stated, fails: the warning cites the line after its leading spaces
and tabs have been removed. For the indented line of this input the warning
does not contain the raw text of the line. -/
theorem validateTOML_warning_cites_trimmed_text :
    getlines "  bad line\n" = ["  bad line".data] ∧
      tomlFlagged "  bad line".data = true ∧
      (validateTOML "  bad line\n").warnings = ["Line 1 doesn't match TOML syntax: bad line"] ∧
      ¬ (∃ m ∈ (validateTOML "  bad line\n").warnings,
          containsSubstr "  bad line".data m.data = true) := by
  decide

/-- C14, amended. The per-line warnings of `validateTOML` are, in input order,
one warning for each line that after removal of its leading spaces and tabs is
not empty, does not start with `#` and holds neither shape. The warning cites
the 1-based number of the line among all lines of the input and the text of
the line without its leading spaces and tabs. The cited numbers increase, and
the only other warning is the final note on a text without content. -/
theorem validateTOML_line_warnings (content : String) :
    (validateTOML content).warnings =
        (((getlines content).enumFrom 1).filter fun e => tomlFlagged e.2).map
            (fun e => "Line " ++ toString e.1 ++ " doesn't match TOML syntax: " ++
              String.mk (trimLeft e.2)) ++
          (if (getlines content).any tomlHasContent then []
            else ["TOML file appears to be empty"]) ∧
      (∀ (i : Nat) (line : List Char), (getlines content)[i]? = some line →
        tomlFlagged line = true →
        ("Line " ++ toString (i + 1) ++ " doesn't match TOML syntax: " ++
          String.mk (trimLeft line)) ∈ (validateTOML content).warnings) ∧
      List.Pairwise (fun a b => a < b)
        ((((getlines content).enumFrom 1).filter fun e => tomlFlagged e.2).map Prod.fst) := by
  have heq := validateTOML_warnings_eq content
  rw [flatMap_tomlLineWarnings] at heq
  refine ⟨heq, ?_, ?_⟩
  · intro i line hline hflag
    rw [heq]
    apply List.mem_append_left
    rw [List.mem_map]
    refine ⟨(1 + i, line), ?_, ?_⟩
    · rw [List.mem_filter]
      exact ⟨List.mk_add_mem_enumFrom_iff_getElem?.mpr hline, hflag⟩
    · show tomlMessage (1 + i) line = _
      rw [Nat.add_comm]
      rfl
  · have hsorted : List.Pairwise (fun a b : Nat × List Char => a.1 < b.1)
        ((getlines content).enumFrom 1) := by
      rw [← List.pairwise_map (f := Prod.fst) (R := fun a b => a < b), List.enumFrom_map_fst]
      exact List.pairwise_lt_range' 1 _
    exact List.pairwise_map.mpr (hsorted.filter _)

/-- C17, as stated, fails: each line of this input merely contains a piece of
an accepted shape inside other text, neither line has an accepted shape as a
whole, and `validateTOML` warns about neither. -/
theorem validateTOML_embedded_shape_accepted :
    validateTOML "!!! [a] ???\na b c = d\n" =
        { valid := true, errors := [], warnings := [], fileType := "TOML" } ∧
      sectionRegex.accepts "!!! [a] ???".data = false ∧
      keyValueRegex.accepts "!!! [a] ???".data = false ∧
      sectionRegex.accepts "a b c = d".data = false ∧
      keyValueRegex.accepts "a b c = d".data = false := by
  decide

/-- C17, amended. The warnings of `validateTOML` are the contributions of its
lines, in order, followed by the final note. A line that after trimming is not
empty and not a comment contributes no warning if and only if some piece of
the trimmed line (not necessarily the whole of it) has one of the two shapes:
a section header, or a key, optional whitespace, an equals sign and a
non-empty remainder. -/
theorem validateTOML_accepts_iff_contains_shape (content : String) :
    (validateTOML content).warnings =
        ((getlines content).enumFrom 1).flatMap (fun e => tomlLineWarnings e.1 e.2) ++
          (if (getlines content).any tomlHasContent then []
            else ["TOML file appears to be empty"]) ∧
      (∀ (lineNum : Nat) (line : List Char) (st : TomlState),
        trimLeft line ≠ [] → (trimLeft line).head? ≠ some '#' →
        ((tomlLineWarnings lineNum line = [] ↔
            ∃ pre mid post, trimLeft line = pre ++ mid ++ post ∧
              (IsSectionHeader mid ∨ IsKeyValue mid)) ∧
          ((tomlLine lineNum line st).warnings = st.warnings ↔
            ∃ pre mid post, trimLeft line = pre ++ mid ++ post ∧
              (IsSectionHeader mid ∨ IsKeyValue mid)))) := by
  refine ⟨validateTOML_warnings_eq content, ?_⟩
  intro lineNum line st hne hcomment
  have hcontent : tomlHasContent line = true := by
    unfold tomlHasContent
    cases ht : trimLeft line with
    | nil => exact absurd ht hne
    | cons c cs =>
      rw [ht] at hcomment
      have hc : c ≠ '#' := by
        intro h
        exact hcomment (by rw [h]; rfl)
      simp [hc]
  have hiff := tomlFlagged_eq_false_iff line hcontent
  have hw : tomlLineWarnings lineNum line = [] ↔ tomlFlagged line = false := by
    unfold tomlLineWarnings
    cases tomlFlagged line <;> simp
  refine ⟨hw.trans hiff, ?_⟩
  rw [tomlLine_eq]
  simp only [List.append_right_eq_self]
  exact hw.trans hiff

/-! ## The ENV line checker (C15, C16, C18) -/

section Env

theorem envLine_eq (lineNum : Nat) (line : List Char) (st : EnvState) :
    envLine lineNum line st =
      { warnings := st.warnings ++ envLineWarnings lineNum line,
        validVars := st.validVars + if envRecognised line then 1 else 0 } := by
  unfold envLine envLineWarnings envRecognised envSkipped
  by_cases h1 : (line.isEmpty || regexSearchAtStart commentRegex line) = true
  · simp [h1]
  · by_cases h2 : regexSearchAtStart envRegex line = true
    · simp only [h1, h2, if_true, if_false, Bool.not_eq_true, Bool.false_eq_true]
      unfold envQuoteCheck envUnquoted
      cases afterFirstEq line with
      | none => simp [h1]
      | some value =>
        dsimp only
        split <;> simp
    · simp [h1, h2]

theorem envLoop_eq (lines : List (List Char)) (lineNum : Nat) (st : EnvState) :
    envLoop lines lineNum st =
      { warnings := st.warnings ++
          (lines.enumFrom (lineNum + 1)).flatMap fun e => envLineWarnings e.1 e.2,
        validVars := st.validVars + (lines.filter envRecognised).length } := by
  induction lines generalizing lineNum st with
  | nil => simp [envLoop]
  | cons line rest ih =>
    simp only [envLoop, ih, envLine_eq, List.enumFrom_cons, List.flatMap_cons,
      List.append_assoc, List.filter_cons]
    cases envRecognised line <;> (simp; try omega)

theorem validateEnvRun_eq (content : String) :
    validateEnvRun content =
      ({ valid := true, errors := [],
         warnings :=
           ((getlines content).enumFrom 1).flatMap (fun e => envLineWarnings e.1 e.2) ++
             (if ((getlines content).filter envRecognised).length = 0 then
               ["No valid environment variables found"] else []),
         fileType := "ENV" },
        ((getlines content).filter envRecognised).length) := by
  unfold validateEnvRun
  simp only [envLoop_eq, List.nil_append, Nat.zero_add]
  by_cases h : ((getlines content).filter envRecognised).length = 0
  · simp [h]
  · simp [h]

/-- The recognition pattern is found exactly in the lines that start with one
or more word characters followed by an equals sign. -/
theorem regexSearchAtStart_envRegex (line : List Char) :
    regexSearchAtStart envRegex line = true ↔
      ∃ ident rest, line = ident ++ '=' :: rest ∧ ident ≠ [] ∧
        ∀ c ∈ ident, isWordChar c = true := by
  rw [regexSearchAtStart_iff]
  unfold envRegex
  simp only [Rx.matches_cat, Rx.matches_lit, Rx.matches_plus_cls, Rx.matches_star_cls]
  constructor
  · rintro ⟨mid, post, hl, ident, r1, hmid, ⟨hne, hall⟩, eq, value, hr1, heq, _⟩
    exact ⟨ident, value ++ post, by simp [hl, hmid, hr1, heq], hne, hall⟩
  · rintro ⟨ident, rest, hl, hne, hall⟩
    exact ⟨ident ++ ['='], rest, by simp [hl], ident, ['='], rfl, ⟨hne, hall⟩, ['='], [],
      rfl, rfl, by simp⟩

/-- The comment pattern is found exactly in the lines whose first character
after leading whitespace is `#`. -/
theorem regexSearchAtStart_commentRegex (line : List Char) :
    regexSearchAtStart commentRegex line = true ↔
      ∃ ws rest, line = ws ++ '#' :: rest ∧ ∀ c ∈ ws, isSpaceChar c = true := by
  rw [regexSearchAtStart_iff]
  unfold commentRegex
  simp only [Rx.matches_cat, Rx.matches_lit, Rx.matches_star_cls]
  constructor
  · rintro ⟨mid, post, hl, ws, hash, hmid, hws, hhash⟩
    exact ⟨ws, post, by simp [hl, hmid, hhash], hws⟩
  · rintro ⟨ws, rest, hl, hws⟩
    exact ⟨ws ++ ['#'], rest, by simp [hl], ws, ['#'], rfl, hws, rfl⟩

theorem isWordChar_not_space (c : Char) (h : isWordChar c = true) : isSpaceChar c = false := by
  cases hs : isSpaceChar c with
  | false => rfl
  | true =>
    unfold isSpaceChar at hs
    simp only [Bool.or_eq_true, beq_iff_eq] at hs
    rcases hs with ((((h1 | h1) | h1) | h1) | h1) | h1 <;>
      · rw [h1] at h
        exact absurd h (by decide)

theorem afterFirstEq_append (ident value : List Char) (hident : ∀ c ∈ ident, c ≠ '=') :
    afterFirstEq (ident ++ '=' :: value) = some value := by
  induction ident with
  | nil => simp [afterFirstEq]
  | cons c cs ih =>
    have hc : c ≠ '=' := hident c (List.mem_cons_self _ _)
    simp only [List.cons_append, afterFirstEq, hc, if_false]
    exact ih fun x hx => hident x (List.mem_cons_of_mem _ hx)

/-- A line that starts with an identifier and an equals sign is recognised,
whatever follows the equals sign. -/
theorem envRecognised_of_assignment (ident value : List Char) (hne : ident ≠ [])
    (hident : ∀ c ∈ ident, isWordChar c = true) :
    regexSearchAtStart envRegex (ident ++ '=' :: value) = true ∧
      envRecognised (ident ++ '=' :: value) = true := by
  have hrec : regexSearchAtStart envRegex (ident ++ '=' :: value) = true :=
    (regexSearchAtStart_envRegex _).mpr ⟨ident, value, rfl, hne, hident⟩
  refine ⟨hrec, ?_⟩
  unfold envRecognised envSkipped
  rw [hrec]
  cases ident with
  | nil => exact absurd rfl hne
  | cons c cs =>
    have hc : isWordChar c = true := hident c (List.mem_cons_self _ _)
    have hcomment : regexSearchAtStart commentRegex (c :: cs ++ '=' :: value) = false := by
      cases hm : regexSearchAtStart commentRegex (c :: cs ++ '=' :: value) with
      | false => rfl
      | true =>
        obtain ⟨ws, rest, hl, hws⟩ := (regexSearchAtStart_commentRegex _).mp hm
        cases ws with
        | nil =>
          simp only [List.nil_append, List.cons_append, List.cons.injEq] at hl
          rw [hl.1] at hc
          exact absurd hc (by decide)
        | cons x xs =>
          simp only [List.cons_append, List.cons.injEq] at hl
          have hx := hws x (List.mem_cons_self _ _)
          rw [← hl.1, isWordChar_not_space c hc] at hx
          exact Bool.noConfusion hx
    simp only [List.cons_append] at hcomment ⊢
    simp [hcomment]

theorem line_prefix_ne_note (rest : String) :
    "Line " ++ rest ≠ "No valid environment variables found" := by
  intro h
  have h1 := congrArg String.data h
  rw [String.data_append] at h1
  have h2 : ("Line ".data ++ rest.data).head? =
      "No valid environment variables found".data.head? := congrArg List.head? h1
  have h3 : ("Line ".data ++ rest.data).head? = some 'L' := rfl
  have h4 : "No valid environment variables found".data.head? = some 'N' := rfl
  rw [h3, h4] at h2
  exact absurd h2 (by decide)

theorem note_not_mem_envLineWarnings (lineNum : Nat) (line : List Char) :
    "No valid environment variables found" ∉ envLineWarnings lineNum line := by
  unfold envLineWarnings
  intro hmem
  split at hmem
  · simp at hmem
  · split at hmem
    · split at hmem
      · rw [List.mem_singleton, String.append_assoc] at hmem
        exact line_prefix_ne_note _ hmem.symm
      · simp at hmem
    · rw [List.mem_singleton, String.append_assoc, String.append_assoc] at hmem
      exact line_prefix_ne_note _ hmem.symm

end Env

/-- C15, as stated, fails: the value of this recognised line holds a space and
starts with a double quote that is never closed, so it is not wrapped in
quotes, yet `validateEnv` emits no warning: the check looks at the first
character of the value only. -/
theorem validateEnv_unclosed_quote_unwarned :
    getlines "FOO=\"bar baz\n" = ["FOO=\"bar baz".data] ∧
      envRecognised "FOO=\"bar baz".data = true ∧
      afterFirstEq "FOO=\"bar baz".data = some "\"bar baz".data ∧
      ' ' ∈ "\"bar baz".data ∧
      "\"bar baz".data.head? = some '"' ∧
      "\"bar baz".data.getLast? = some 'z' ∧
      validateEnvRun "FOO=\"bar baz\n" =
        ({ valid := true, errors := [], warnings := [], fileType := "ENV" }, 1) := by
  decide

/-- C15, amended. For every ENV input and every line (the `i + 1`-th) that is
recognised as a variable assignment, if the text after the first `'='` holds a
space and its first character is neither a double nor a single quote, the
warnings of `validateEnv` include "Line N: unquoted value with spaces" for that
line number. The recognised-variable count is the number of recognised lines,
so the line counts as one, and the result is valid. -/
theorem validateEnv_unquoted_value_warning (content : String) (i : Nat)
    (line value : List Char)
    (hline : (getlines content)[i]? = some line)
    (hrec : envRecognised line = true)
    (hvalue : afterFirstEq line = some value)
    (hspace : ' ' ∈ value)
    (hdouble : value.head? ≠ some '"')
    (hsingle : value.head? ≠ some (Char.ofNat 39)) :
    ("Line " ++ toString (i + 1) ++ ": unquoted value with spaces") ∈
        (validateEnv content).warnings ∧
      (validateEnvRun content).2 = ((getlines content).filter envRecognised).length ∧
      0 < (validateEnvRun content).2 ∧
      (validateEnv content).valid = true := by
  have hrun := validateEnvRun_eq content
  have hmemline : line ∈ (getlines content).filter envRecognised := by
    rw [List.mem_filter]
    exact ⟨List.getElem?_mem hline, hrec⟩
  have hcount : 0 < ((getlines content).filter envRecognised).length :=
    List.length_pos_of_mem hmemline
  refine ⟨?_, by rw [hrun], by rw [hrun]; exact hcount, rfl⟩
  unfold validateEnv
  rw [hrun]
  apply List.mem_append_left
  rw [List.mem_flatMap]
  refine ⟨(1 + i, line), List.mk_add_mem_enumFrom_iff_getElem?.mpr hline, ?_⟩
  have hskip : envSkipped line = false := by
    unfold envRecognised at hrec
    cases hs : envSkipped line with
    | false => rfl
    | true => rw [hs] at hrec; exact Bool.noConfusion hrec
  have hmatch : regexSearchAtStart envRegex line = true := by
    unfold envRecognised at hrec
    rw [hskip] at hrec
    simpa using hrec
  have hunq : envUnquoted line = true := by
    unfold envUnquoted
    rw [hvalue]
    simp [hspace, hdouble, hsingle]
  unfold envLineWarnings
  rw [hskip, hmatch, hunq, Nat.add_comm 1 i]
  simp

/-- C15 amended, at the input of the spec scenario: the single line
`FOO=bar baz`. -/
theorem validateEnv_unquoted_value_warning_witness :
    validateEnvRun "FOO=bar baz" =
        ({ valid := true, errors := [], warnings := ["Line 1: unquoted value with spaces"],
           fileType := "ENV" }, 1) ∧
      (("Line " ++ toString (0 + 1) ++ ": unquoted value with spaces") ∈
          (validateEnv "FOO=bar baz").warnings ∧
        (validateEnvRun "FOO=bar baz").2 =
          ((getlines "FOO=bar baz").filter envRecognised).length ∧
        0 < (validateEnvRun "FOO=bar baz").2 ∧
        (validateEnv "FOO=bar baz").valid = true) :=
  ⟨by decide,
    validateEnv_unquoted_value_warning "FOO=bar baz" 0 "FOO=bar baz".data "bar baz".data
      (by decide) (by decide) (by decide) (by decide) (by decide) (by decide)⟩

/-- C16, as stated, fails: the line `FOO="a b"` has a value with a space, and
the recognition pattern is found in it (it matches the prefix up to the
space). The line is counted as a recognised variable and draws no warning at
all. -/
theorem validateEnv_quoted_space_recognised :
    getlines "FOO=\"a b\"\n" = ["FOO=\"a b\"".data] ∧
      regexSearchAtStart envRegex "FOO=\"a b\"".data = true ∧
      validateEnvRun "FOO=\"a b\"\n" =
        ({ valid := true, errors := [], warnings := [], fileType := "ENV" }, 1) ∧
      validateEnvRun "FOO=bar baz\n" =
        ({ valid := true, errors := [], warnings := ["Line 1: unquoted value with spaces"],
           fileType := "ENV" }, 1) := by
  decide

/-- C16, amended. For every ENV line that consists of an identifier (one or
more word characters), an equals sign and any value, whitespace in the value
included, the recognition pattern is found in the line: the loop body counts
the line as a recognised variable and adds no syntax warning, only the
quote-check warning when the value holds a space and does not start with a
quote. -/
theorem validateEnv_recognises_any_value (ident value : List Char) (lineNum : Nat)
    (st : EnvState) (hne : ident ≠ []) (hident : ∀ c ∈ ident, isWordChar c = true) :
    regexSearchAtStart envRegex (ident ++ '=' :: value) = true ∧
      (envLine lineNum (ident ++ '=' :: value) st).validVars = st.validVars + 1 ∧
      (envLine lineNum (ident ++ '=' :: value) st).warnings =
        st.warnings ++
          (if value.contains ' ' && value.head? != some '"' &&
              value.head? != some (Char.ofNat 39) then
            ["Line " ++ toString lineNum ++ ": unquoted value with spaces"] else []) ∧
      (value.head? = some '"' ∨ value.head? = some (Char.ofNat 39) →
        (envLine lineNum (ident ++ '=' :: value) st).warnings = st.warnings) := by
  obtain ⟨hmatch, hrec⟩ := envRecognised_of_assignment ident value hne hident
  have hskip : envSkipped (ident ++ '=' :: value) = false := by
    unfold envRecognised at hrec
    cases hs : envSkipped (ident ++ '=' :: value) with
    | false => rfl
    | true => rw [hs] at hrec; exact Bool.noConfusion hrec
  have hnoeq : ∀ c ∈ ident, c ≠ '=' := by
    intro c hc heq
    have hw := hident c hc
    rw [heq] at hw
    exact absurd hw (by decide)
  have hafter := afterFirstEq_append ident value hnoeq
  have hwarn : envLineWarnings lineNum (ident ++ '=' :: value) =
      (if value.contains ' ' && value.head? != some '"' &&
          value.head? != some (Char.ofNat 39) then
        ["Line " ++ toString lineNum ++ ": unquoted value with spaces"] else []) := by
    unfold envLineWarnings envUnquoted
    rw [hskip, hmatch, hafter]
    simp
  refine ⟨hmatch, ?_, ?_, ?_⟩
  · rw [envLine_eq, hrec]
    rfl
  · rw [envLine_eq, hwarn]
  · intro hquote
    rw [envLine_eq, hwarn]
    rcases hquote with h | h <;> simp [h]

/-- C16 amended, at a concrete input: the line `FOO="a b"` as line 1. -/
theorem validateEnv_recognises_any_value_witness :
    regexSearchAtStart envRegex ("FOO".data ++ '=' :: "\"a b\"".data) = true ∧
      (envLine 1 ("FOO".data ++ '=' :: "\"a b\"".data) ⟨[], 0⟩).validVars = 0 + 1 ∧
      (envLine 1 ("FOO".data ++ '=' :: "\"a b\"".data) ⟨[], 0⟩).warnings = [] :=
  have h := validateEnv_recognises_any_value "FOO".data "\"a b\"".data 1 ⟨[], 0⟩
    (by decide) (by decide)
  ⟨h.1, h.2.1, h.2.2.2 (Or.inl (by decide))⟩

/-- C18, as stated, fails: the first line of this input consists of spaces
only and the second is a comment, yet the first line is not skipped: it draws
a syntax warning. -/
theorem validateEnv_spaces_only_line_warned :
    getlines "   \n# note\n" = ["   ".data, "# note".data] ∧
      ("   ".data.all fun c => c == ' ') = true ∧
      validateEnvRun "   \n# note\n" =
        ({ valid := true, errors := [],
           warnings := ["Line 1 doesn't match ENV syntax:    ",
             "No valid environment variables found"],
           fileType := "ENV" }, 0) := by
  decide

/-- A non-empty line of spaces and tabs is neither skipped nor recognised by
`validateEnv`: it contributes the syntax warning. -/
theorem envLineWarnings_of_blanks (lineNum : Nat) (line : List Char) (hne : line ≠ [])
    (hblank : ∀ c ∈ line, c = ' ' ∨ c = '\t') :
    envSkipped line = false ∧ envRecognised line = false ∧
      envLineWarnings lineNum line =
        ["Line " ++ toString lineNum ++ " doesn't match ENV syntax: " ++ String.mk line] := by
  have hcomment : regexSearchAtStart commentRegex line = false := by
    cases hm : regexSearchAtStart commentRegex line with
    | false => rfl
    | true =>
      obtain ⟨ws, rest, hl, _⟩ := (regexSearchAtStart_commentRegex line).mp hm
      have hmem : '#' ∈ line := by rw [hl]; simp
      rcases hblank '#' hmem with h | h <;> exact absurd h (by decide)
  have hmatch : regexSearchAtStart envRegex line = false := by
    cases hm : regexSearchAtStart envRegex line with
    | false => rfl
    | true =>
      obtain ⟨ident, rest, hl, _, _⟩ := (regexSearchAtStart_envRegex line).mp hm
      have hmem : '=' ∈ line := by rw [hl]; simp
      rcases hblank '=' hmem with h | h <;> exact absurd h (by decide)
  have hskip : envSkipped line = false := by
    unfold envSkipped
    rw [hcomment]
    cases line with
    | nil => exact absurd rfl hne
    | cons c cs => rfl
  refine ⟨hskip, ?_, ?_⟩
  · unfold envRecognised
    rw [hmatch]
    simp
  · unfold envLineWarnings
    rw [hskip, hmatch]
    simp

/-- C18, amended. For every ENV input in which each line is either empty or has
`#` as its first character after leading whitespace, `validateEnv` skips every
line: the recognised-variable count is 0 and the warnings are exactly
"No valid environment variables found". A non-empty line that consists only of
spaces or tabs is not skipped: the loop body leaves the count unchanged and
adds the syntax warning for it, so that warning, with the number of the line,
is among the warnings of every input that holds such a line. For every input,
the note "No valid environment variables found" is among the warnings if and
only if the recognised-variable count is zero. -/
theorem validateEnv_skips_empty_and_comments (content : String)
    (hlines : ∀ line ∈ getlines content,
      line = [] ∨ ∃ ws rest, line = ws ++ '#' :: rest ∧ ∀ c ∈ ws, isSpaceChar c = true) :
    validateEnvRun content =
        ({ valid := true, errors := [], warnings := ["No valid environment variables found"],
           fileType := "ENV" }, 0) ∧
      (∀ other : String,
        ("No valid environment variables found" ∈ (validateEnv other).warnings ↔
          (validateEnvRun other).2 = 0)) ∧
      (∀ (lineNum : Nat) (line : List Char) (st : EnvState),
        line ≠ [] → (∀ c ∈ line, c = ' ' ∨ c = '\t') →
        envSkipped line = false ∧
          envLine lineNum line st =
            { warnings := st.warnings ++
                ["Line " ++ toString lineNum ++ " doesn't match ENV syntax: " ++ String.mk line],
              validVars := st.validVars }) ∧
      (∀ (other : String) (i : Nat) (line : List Char),
        (getlines other)[i]? = some line →
        line ≠ [] → (∀ c ∈ line, c = ' ' ∨ c = '\t') →
        ("Line " ++ toString (i + 1) ++ " doesn't match ENV syntax: " ++ String.mk line) ∈
          (validateEnv other).warnings) := by
  have hskip : ∀ line ∈ getlines content, envSkipped line = true := by
    intro line hline
    unfold envSkipped
    rcases hlines line hline with h | ⟨ws, rest, h, hws⟩
    · simp [h]
    · rw [(regexSearchAtStart_commentRegex line).mpr ⟨ws, rest, h, hws⟩]
      simp
  have hnone : (getlines content).filter envRecognised = [] := by
    rw [List.filter_eq_nil_iff]
    intro line hline
    simp [envRecognised, hskip line hline]
  have hquiet : ((getlines content).enumFrom 1).flatMap
      (fun e => envLineWarnings e.1 e.2) = [] := by
    rw [List.flatMap_eq_nil_iff]
    intro e he
    have hmem : e.2 ∈ getlines content := List.snd_mem_of_mem_enumFrom he
    simp [envLineWarnings, hskip e.2 hmem]
  refine ⟨?_, ?_, ?_, ?_⟩
  · rw [validateEnvRun_eq, hnone, hquiet]
    rfl
  · intro other
    unfold validateEnv
    rw [validateEnvRun_eq]
    dsimp only
    by_cases hzero : ((getlines other).filter envRecognised).length = 0
    · simp [hzero]
    · simp only [hzero, if_false, List.append_nil, iff_false]
      intro hmem
      rw [List.mem_flatMap] at hmem
      obtain ⟨e, _, he⟩ := hmem
      exact note_not_mem_envLineWarnings e.1 e.2 he
  · intro lineNum line st hne hblank
    obtain ⟨hs, hr, hw⟩ := envLineWarnings_of_blanks lineNum line hne hblank
    refine ⟨hs, ?_⟩
    rw [envLine_eq, hw, hr]
    rfl
  · intro other i line hline hne hblank
    obtain ⟨_, _, hw⟩ := envLineWarnings_of_blanks (1 + i) line hne hblank
    unfold validateEnv
    rw [validateEnvRun_eq]
    apply List.mem_append_left
    rw [List.mem_flatMap]
    refine ⟨(1 + i, line), List.mk_add_mem_enumFrom_iff_getElem?.mpr hline, ?_⟩
    show _ ∈ envLineWarnings (1 + i) line
    rw [hw, Nat.add_comm 1 i]
    exact List.mem_singleton.mpr rfl

/-- C18 amended, at concrete inputs: an empty line, a comment and an indented
comment are all skipped; the line of a space and a tab of a second input is
not, and draws the syntax warning. -/
theorem validateEnv_skips_empty_and_comments_witness :
    validateEnvRun "\n# note\n \t# more\n" =
        ({ valid := true, errors := [], warnings := ["No valid environment variables found"],
           fileType := "ENV" }, 0) ∧
      ("Line " ++ toString (1 + 1) ++ " doesn't match ENV syntax: " ++ String.mk " \t".data) ∈
        (validateEnv "A=1\n \t\n").warnings ∧
      validateEnvRun "A=1\n \t\n" =
        ({ valid := true, errors := [], warnings := ["Line 2 doesn't match ENV syntax:  \t"],
           fileType := "ENV" }, 1) :=
  have h := validateEnv_skips_empty_and_comments "\n# note\n \t# more\n" (by
    intro line hline
    have hl : getlines "\n# note\n \t# more\n" = [[], "# note".data, " \t# more".data] := by
      decide
    rw [hl] at hline
    simp only [List.mem_cons, List.mem_singleton, List.not_mem_nil, or_false] at hline
    rcases hline with h | h | h
    · exact Or.inl h
    · exact Or.inr ⟨[], " note".data, by rw [h]; rfl, by simp⟩
    · exact Or.inr ⟨" \t".data, " more".data, by rw [h]; rfl, by decide⟩)
  ⟨h.1, h.2.2.2 "A=1\n \t\n" 1 " \t".data (by decide) (by decide) (by decide), by decide⟩

/-! ## The lenient validators and the regular-expression engine (C7) -/

section Engine

theorem tomlLineOn_eq (e : RegexEngine) (lineNum : Nat) (line : List Char) (st : TomlState) :
    tomlLineOn e lineNum line st =
      if (tomlSearches line).all (fun p => e.completes p.1 p.2) then
        some (tomlLine lineNum line st)
      else none := by
  unfold tomlLineOn tomlSearches tomlLine regexSearchOn
  simp only
  by_cases hskip : ((trimLeft line).isEmpty || (trimLeft line).head? == some '#') = true
  · simp [hskip]
  · simp only [hskip, if_false, Bool.false_eq_true]
    cases hc1 : e.completes sectionRegex (trimLeft line) with
    | false => simp [hc1]
    | true =>
      cases hs1 : regexSearch sectionRegex (trimLeft line) with
      | true => simp [hc1, hs1]
      | false =>
        cases hc2 : e.completes keyValueRegex (trimLeft line) with
        | false => simp [hc1, hs1, hc2]
        | true =>
          cases hs2 : regexSearch keyValueRegex (trimLeft line) <;> simp [hc1, hs1, hc2, hs2]

theorem tomlLoopOn_eq (e : RegexEngine) (lines : List (List Char)) (lineNum : Nat)
    (st : TomlState) :
    tomlLoopOn e lines lineNum st =
      if (lines.flatMap tomlSearches).all (fun p => e.completes p.1 p.2) then
        some (tomlLoop lines lineNum st)
      else none := by
  induction lines generalizing lineNum st with
  | nil => simp [tomlLoopOn, tomlLoop]
  | cons line rest ih =>
    simp only [tomlLoopOn, tomlLineOn_eq, List.flatMap_cons, List.all_append, tomlLoop]
    cases (tomlSearches line).all (fun p => e.completes p.1 p.2) with
    | false => simp
    | true =>
      simp only [Bool.true_and, if_true]
      exact ih _ _

theorem envLineOn_eq (e : RegexEngine) (lineNum : Nat) (line : List Char) (st : EnvState) :
    envLineOn e lineNum line st =
      if (envSearches line).all (fun p => e.completes p.1 p.2) then
        some (envLine lineNum line st)
      else none := by
  unfold envLineOn envSearches envLine regexSearchAtStartOn
  by_cases hempty : line.isEmpty = true
  · simp [hempty]
  · simp only [hempty, if_false, Bool.false_eq_true, Bool.false_or]
    cases hc1 : e.completes commentRegex line with
    | false => simp [hc1]
    | true =>
      cases hs1 : regexSearchAtStart commentRegex line with
      | true => simp [hc1, hs1]
      | false =>
        cases hc2 : e.completes envRegex line with
        | false => simp [hc1, hs1, hc2]
        | true =>
          cases hs2 : regexSearchAtStart envRegex line <;> simp [hc1, hs1, hc2, hs2]

theorem envLoopOn_eq (e : RegexEngine) (lines : List (List Char)) (lineNum : Nat)
    (st : EnvState) :
    envLoopOn e lines lineNum st =
      if (lines.flatMap envSearches).all (fun p => e.completes p.1 p.2) then
        some (envLoop lines lineNum st)
      else none := by
  induction lines generalizing lineNum st with
  | nil => simp [envLoopOn, envLoop]
  | cons line rest ih =>
    simp only [envLoopOn, envLineOn_eq, List.flatMap_cons, List.all_append, envLoop]
    cases (envSearches line).all (fun p => e.completes p.1 p.2) with
    | false => simp
    | true =>
      simp only [Bool.true_and, if_true]
      exact ih _ _

theorem validateTOMLOn_eq (e : RegexEngine) (content : String) :
    validateTOMLOn e content =
      if ((getlines content).flatMap tomlSearches).all (fun p => e.completes p.1 p.2) then
        some (validateTOML content)
      else none := by
  unfold validateTOMLOn validateTOML
  rw [tomlLoopOn_eq]
  cases ((getlines content).flatMap tomlSearches).all (fun p => e.completes p.1 p.2) <;> rfl

theorem validateEnvOn_eq (e : RegexEngine) (content : String) :
    validateEnvOn e content =
      if ((getlines content).flatMap envSearches).all (fun p => e.completes p.1 p.2) then
        some (validateEnv content)
      else none := by
  unfold validateEnvOn validateEnv validateEnvRun
  rw [envLoopOn_eq]
  cases ((getlines content).flatMap envSearches).all (fun p => e.completes p.1 p.2) <;> rfl

end Engine

/-- C7. `validateTOML` and `validateEnv` return a result exactly when every
`std::regex_search` call they make on the lines of the input comes back, and
every result they return has `valid = true` and no error; only the warnings
depend on the content. With an engine that completes every search each input
gets such a result; the empty text gets one with any engine, since no search
is made for it. With an engine of bounded capacity a text with one line beyond
that capacity gets no result at all. -/
theorem toml_env_valid_when_searches_complete (e : RegexEngine) (content : String) :
    (validateTOMLOn e content =
        (if ((getlines content).flatMap tomlSearches).all (fun p => e.completes p.1 p.2) then
          some { valid := true, errors := [], warnings := (validateTOML content).warnings,
                 fileType := "TOML" }
        else none) ∧
      validateEnvOn e content =
        (if ((getlines content).flatMap envSearches).all (fun p => e.completes p.1 p.2) then
          some { valid := true, errors := [], warnings := (validateEnv content).warnings,
                 fileType := "ENV" }
        else none)) ∧
    (∀ r, validateTOMLOn e content = some r ∨ validateEnvOn e content = some r →
      r.valid = true ∧ r.errors = []) ∧
    (validateTOMLOn RegexEngine.unbounded content = some (validateTOML content) ∧
      validateEnvOn RegexEngine.unbounded content = some (validateEnv content)) ∧
    (validateTOMLOn e "" =
        some { valid := true, errors := [], warnings := ["TOML file appears to be empty"],
               fileType := "TOML" } ∧
      validateEnvOn e "" =
        some { valid := true, errors := [],
               warnings := ["No valid environment variables found"], fileType := "ENV" }) ∧
    (validateTOMLOn RegexEngine.unbounded "%% ??\n" =
        some { valid := true, errors := [],
               warnings := ["Line 1 doesn't match TOML syntax: %% ??"], fileType := "TOML" } ∧
      validateEnvOn RegexEngine.unbounded "%% ??\n" =
        some { valid := true, errors := [],
               warnings := ["Line 1 doesn't match ENV syntax: %% ??",
                 "No valid environment variables found"],
               fileType := "ENV" }) ∧
    (validateTOMLOn (RegexEngine.bounded 16) "aaaaaaaaaaaaaaaaaaaaaaaa" = none ∧
      validateEnvOn (RegexEngine.bounded 16) "aaaaaaaaaaaaaaaaaaaaaaaa" = none) := by
  have htoml := validateTOMLOn_eq e content
  have henv := validateEnvOn_eq e content
  refine ⟨⟨htoml, henv⟩, ?_, ?_, ⟨rfl, rfl⟩, ⟨by decide, by decide⟩, ⟨by decide, by decide⟩⟩
  · intro r hr
    rcases hr with hr | hr
    · rw [htoml] at hr
      split at hr
      · cases hr
        exact ⟨rfl, rfl⟩
      · cases hr
    · rw [henv] at hr
      split at hr
      · cases hr
        exact ⟨rfl, rfl⟩
      · cases hr
  · rw [validateTOMLOn_eq, validateEnvOn_eq]
    simp [RegexEngine.unbounded]

end Devops
